import Mathlib

/-!
Verification of the annotation-session engine of `classifier.py`.

The development shallowly embeds the program's data model and operations:

* Python record tuples `(species, confidence)` / `(species, confidence, proloculous)`
  become the structure `Rcd`; the confidence slot can hold either a Python `int`
  (interactive entry) or a `str` (values loaded from file), captured by `PyV`.
* The `self.data` dict becomes an insertion-ordered association list `Data`
  with Python-dict `lookup` / item-assignment / `del` semantics.
* CSV files become lists of rows, each row a list of field strings; the `csv`
  module's quoting layer is treated as transparent.
* Interactive input becomes an explicit token list; each `input()` call
  consumes one token, and re-prompt loops consume tokens until a valid one.
* The filesystem becomes explicit data: the list of `.jpg` basenames and an
  association list from `.csv` basenames to row lists.

The species-completion registry (`known_species` / `lower_species`) feeds only
the tab-completion UI; it is carried in the state for fidelity but has no
bearing on any proved property.
-/

namespace Classifier

/-- Python value stored in a record slot: an `int` or a `str`. -/
inductive PyV where
  | int (n : Nat)
  | str (s : String)
deriving DecidableEq, Repr

/-- An entry of `self.data`: the tuple `(species, confidence)` when `prolo` is
`none`, and `(species, confidence, proloculous)` when `prolo` is `some`. -/
structure Rcd where
  spec : String
  conf : PyV
  prolo : Option String
deriving DecidableEq, Repr

/-- The in-memory record mapping `self.data`: an insertion-ordered dict. -/
abbrev Data := List (String × Rcd)

/-- Python dict lookup `d[k]` (as an `Option`). -/
def lookupD : Data → String → Option Rcd
  | [], _ => none
  | (k', v) :: t, k => if k' = k then some v else lookupD t k

/-- Python dict item assignment `d[k] = v`: overwrite in place, else append. -/
def setD : Data → String → Rcd → Data
  | [], k, v => [(k, v)]
  | (k', v') :: t, k, v => if k' = k then (k', v) :: t else (k', v') :: setD t k v

/-- Python dict deletion `del d[k]` (the key's presence is checked by callers). -/
def delD : Data → String → Data
  | [], _ => []
  | (k', v') :: t, k => if k' = k then t else (k', v') :: delD t k

/-- Last element of a record tuple, Python's `d[fname][-1]`: the proloculous
slot of a 3-tuple, the confidence slot of a 2-tuple. -/
def lastSlot (r : Rcd) : PyV :=
  match r.prolo with
  | some p => .str p
  | none => r.conf

/-- ASCII lowercasing of a string, Python's `str.lower` on the ASCII fragment. -/
def lowerS (s : String) : String :=
  ⟨s.data.map Char.toLower⟩

/-- Python whitespace test used by `str.strip`. -/
def isSpaceC (c : Char) : Bool :=
  c == ' ' || c == '\t' || c == '\n' || c == '\r' || c.toNat == 11 || c.toNat == 12

/-- Python `str.strip`: drop whitespace from both ends. -/
def stripS (s : String) : String :=
  ⟨((s.data.dropWhile isSpaceC).reverse.dropWhile isSpaceC).reverse⟩

/-- Fuelled decimal-digit extraction; the fuel only bounds the recursion and
any fuel above the digit count gives the digits of `n`, most significant
first. -/
def natDigitsGo : Nat → Nat → List Nat
  | 0, _ => []
  | fuel + 1, n => if n < 10 then [n] else natDigitsGo fuel (n / 10) ++ [n % 10]

/-- Decimal digits of a natural number, most significant first (Python
`str` of a non-negative `int`, as digit values). -/
def natDigits (n : Nat) : List Nat :=
  natDigitsGo (n + 1) n

/-- The ASCII character of a decimal digit. -/
def digitC (d : Nat) : Char :=
  Char.ofNat (48 + d)

/-- Python `str(n)` for a non-negative `int`, as characters. -/
def natStr (n : Nat) : List Char :=
  (natDigits n).map digitC

/-- Python `str(n).zfill(5)`: left-pad the decimal form with zeros to width 5. -/
def zfill5 (n : Nat) : List Char :=
  List.replicate (5 - (natStr n).length) '0' ++ natStr n

/-- Python `str(v)` on a record slot (as used by `csv.writer`). -/
def pyStr (v : PyV) : String :=
  match v with
  | .int n => ⟨natStr n⟩
  | .str s => s

/-- Numeric value of an ASCII digit character, `none` on a non-digit. -/
def digitVal (c : Char) : Option Nat :=
  if 48 ≤ c.toNat ∧ c.toNat ≤ 57 then some (c.toNat - 48) else none

/-- Python `int(s)` restricted to unsigned decimal literals: every character a
digit and the string non-empty; the program only parses fields it wrote in
this form. -/
def parseNat (cs : List Char) : Option Nat :=
  if cs.isEmpty then none
  else cs.foldl (fun acc c => acc.bind fun a => (digitVal c).map fun d => a * 10 + d) (some 0)

/-- Python `s.split(sep='_')` on characters: split at every underscore. -/
def splitU : List Char → List (List Char)
  | [] => [[]]
  | c :: cs =>
    if c = '_' then [] :: splitU cs
    else
      match splitU cs with
      | [] => [[c]]
      | p :: ps => (c :: p) :: ps

/-- The filename `gen_filename` builds for an object number. -/
def genFilename (sample : String) (n : Nat) : String :=
  sample ++ "_obj" ++ (⟨zfill5 n⟩ : String) ++ "_plane000.jpg"

/-- The pair `split_filename` extracts: the first underscore field and the
integer parse of the second field past its first three characters; `none`
models the `ValueError` on any other shape. -/
def splitFilename (f : String) : Option (String × Nat) :=
  match splitU f.data with
  | [a, b, _c] => (parseNat (b.drop 3)).map fun n => ((⟨a⟩ : String), n)
  | _ => none

/-- Code-point lexicographic strict order on character lists, Python's `<`
on `str`. -/
def charsLt : List Char → List Char → Bool
  | [], [] => false
  | [], _ :: _ => true
  | _ :: _, [] => false
  | a :: as, b :: bs =>
    if a.toNat < b.toNat then true
    else if b.toNat < a.toNat then false
    else charsLt as bs

/-- Non-strict form of `charsLt`, the comparator driving Python's `sorted`. -/
def strLe (a b : String) : Bool :=
  ! charsLt b.data a.data

/-- Insertion into a list sorted by `le` (stable: an element goes before the
first entry it is `le` to). -/
def insBy (le : α → α → Bool) (x : α) : List α → List α
  | [] => [x]
  | y :: ys => if le x y then x :: y :: ys else y :: insBy le x ys

/-- Stable insertion sort by `le`, modelling Python's `sorted`. -/
def sortBy (le : α → α → Bool) (l : List α) : List α :=
  l.foldr (insBy le) []

/-- Python `sorted(strings)`. -/
def sortStr (l : List String) : List String :=
  sortBy strLe l

/-- Python `sorted(self.data.items(), key=lambda x: x[0])`. -/
def sortByKey (d : Data) : Data :=
  sortBy (fun a b => strLe a.1 b.1) d

/-- The header row `self.csv_headers` for the plain schema. -/
def plainHeaders : List String :=
  ["Sample Name", "Obj. #", "Species", "Confidence"]

/-- The header row `self.csv_headers` as a function of the `repro` flag. -/
def csvHeaders (repro : Bool) : List String :=
  if repro then plainHeaders ++ ["Proloculous"] else plainHeaders

/-- Failure modes of `_load_existing`, one per `raise` site. -/
inductive LoadErr where
  | emptyFile
  | schemaMismatch
  | badRow
  | invalidObjNum
  | sampleMismatch
  | danglingRef
  | duplicateObject
deriving DecidableEq, Repr

/-- Row unpacking in `_load_existing`: arity fixed by `inRepro`, with the
proloculous field defaulted to the empty string for the four-column shape;
the error models the `ValueError` of tuple unpacking. -/
def unpackRow (inRepro : Bool) (row : List String) :
    Except LoadErr (String × String × String × String × String) :=
  if inRepro then
    match row with
    | [name, obj, spec, conf, prolo] => .ok (name, obj, spec, conf, prolo)
    | _ => .error .badRow
  else
    match row with
    | [name, obj, spec, conf] => .ok (name, obj, spec, conf, "")
    | _ => .error .badRow

/-- Body of the row loop of `_load_existing` for one row: unpack the row,
build the record tuple (shape fixed by `repro`), parse the object number,
check the sample name, check the image file exists, check for duplicates,
and store. -/
def loadRow (repro inRepro : Bool) (sample : String) (imgs : List String)
    (d : Data) (row : List String) : Except LoadErr Data :=
  match unpackRow inRepro row with
  | .error e => .error e
  | .ok (name, obj, spec, conf, prolo) =>
    match parseNat obj.data with
    | none => .error .invalidObjNum
    | some objNum =>
      if name ≠ sample then .error .sampleMismatch
      else if genFilename sample objNum ∉ imgs then .error .danglingRef
      else if (lookupD d (genFilename sample objNum)).isSome then .error .duplicateObject
      else .ok (setD d (genFilename sample objNum)
        (if repro then ⟨spec, .str conf, some prolo⟩ else ⟨spec, .str conf, none⟩))

/-- The function `_load_existing`: header validation (with the
backward-compatibility branch that accepts a plain header in repro mode),
then the row loop starting from the passed-in mapping `d`. -/
def loadExisting (repro : Bool) (sample : String) (imgs : List String)
    (d : Data) (rows : List (List String)) : Except LoadErr Data :=
  match rows with
  | [] => .error .emptyFile
  | header :: rest =>
    if header = csvHeaders repro then
      rest.foldlM (loadRow repro repro sample imgs) d
    else if repro ∧ header = (csvHeaders true).dropLast then
      rest.foldlM (loadRow repro false sample imgs) d
    else .error .schemaMismatch

/-- Row written by `_write_file` for one data item, `none` modelling the
`ValueError` of `split_filename` on a malformed key. -/
def rowOf (e : String × Rcd) : Option (List String) :=
  match splitFilename e.1 with
  | none => none
  | some (sample, obj) =>
    some ([sample, (⟨zfill5 obj⟩ : String), e.2.spec, pyStr e.2.conf] ++
      (match e.2.prolo with
       | some p => [p]
       | none => []))

/-- The function `_write_file`: header row, then one row per record in
key-sorted order. -/
def writeFile (repro : Bool) (d : Data) : Option (List (List String)) :=
  ((sortByKey d).mapM rowOf).map (csvHeaders repro :: ·)

/-- Failure mode of `_find_agreements`: Python's `ValueError` from `min`
applied to the empty collection of sibling mappings. -/
inductive MergeErr where
  | noSiblings
deriving DecidableEq, Repr

/-- The lowercased, stripped species the sibling mappings record for a key
(all siblings hold the key when this is consulted). -/
def siblingSpecies (siblings : List Data) (k : String) : List String :=
  siblings.filterMap fun m => (lookupD m k).map fun r => stripS (lowerS r.spec)

/-- Body of the loop of `_find_agreements` for one entry of the shortest
sibling mapping: skip keys already recorded, keys missing from some sibling,
and keys the siblings disagree on; otherwise add at confidence 3. -/
def agreeStep (siblings : List Data) (d : Data) (e : String × Rcd) : Data :=
  if (lookupD d e.1).isSome then d
  else if ¬ siblings.all fun m => (lookupD m e.1).isSome then d
  else if 1 < (siblingSpecies siblings e.1).dedup.length then d
  else setD d e.1 ⟨e.2.spec, .int 3, none⟩

/-- Python `min(self.fdata.values(), key=lambda x: len(x))`: the first
sibling mapping of minimal size. -/
def shortestSib (s₀ : Data) (rest : List Data) : Data :=
  rest.foldl (fun best x => if x.length < best.length then x else best) s₀

/-- The function `_find_agreements` on the already-loaded sibling mappings
(in directory-scan order): pick the first mapping of minimal size, then fold
the agreement loop over its entries. -/
def findAgreements (siblings : List Data) (d : Data) : Except MergeErr Data :=
  match siblings with
  | [] => .error .noSiblings
  | s₀ :: rest => .ok ((shortestSib s₀ rest).foldl (agreeStep (s₀ :: rest)) d)

/-- The predicate `_skip` at a cursor position: skip an already-recorded
object unless repro mode still needs its proloculous slot and the optional
species filter admits it. -/
def skip (repro : Bool) (filt : Option (List String)) (imgFiles : List String)
    (d : Data) (idx : Nat) : Bool :=
  if h : idx < imgFiles.length then
    match lookupD d (imgFiles.get ⟨idx, h⟩) with
    | none => false
    | some r =>
      if ¬ repro then true
      else if lastSlot r ≠ .str "" then true
      else
        match filt with
        | some fl => if lowerS r.spec ∉ fl then true else false
        | none => false
  else false

theorem skip_lt_of_true {repro filt imgFiles d idx}
    (h : skip repro filt imgFiles d idx = true) : idx < imgFiles.length := by
  by_contra hn
  simp only [skip, dif_neg hn] at h
  exact Bool.false_ne_true h

/-- Fuelled form of the skip loop; any fuel above `imgFiles.length` is
enough, since `skip` fails beyond the end of the list. -/
def findNextGo (repro : Bool) (filt : Option (List String)) (imgFiles : List String)
    (d : Data) : Nat → Nat → Nat
  | 0, idx => idx
  | fuel + 1, idx =>
    if skip repro filt imgFiles d idx then
      findNextGo repro filt imgFiles d fuel (idx + 1)
    else idx

/-- The skip loop at the top of `enter_data`: advance the cursor past every
skipped object. -/
def findNext (repro : Bool) (filt : Option (List String)) (imgFiles : List String)
    (d : Data) (idx : Nat) : Nat :=
  findNextGo repro filt imgFiles d (imgFiles.length + 1) idx

/-- The species-completion registry: `_register_species` adds a label only
when its lowercase form is unseen. -/
def register (reg : List String) (s : String) : List String :=
  if lowerS s ∈ reg.map lowerS then reg else reg ++ [s]

/-- A re-prompt loop such as the confidence prompt: consume input tokens
until one is in the valid set; `none` models exhausted input. -/
def getValidTok (valid : List String) : List String → Option (String × List String)
  | [] => none
  | t :: ts => if t ∈ valid then some (t, ts) else getValidTok valid ts

theorem getValidTok_length {valid t ts'} : ∀ {ts : List String},
    getValidTok valid ts = some (t, ts') → ts'.length < ts.length
  | [], h => by simp [getValidTok] at h
  | x :: xs, h => by
    by_cases hx : x ∈ valid
    · simp [getValidTok, hx] at h
      simp [h.2]
    · simp only [getValidTok, if_neg hx] at h
      have := getValidTok_length h
      simp
      omega

/-- Outcome of the species/confidence solicitation loop. -/
inductive SpecRes where
  | quit
  | entry (spec : String) (conf : Nat)
deriving DecidableEq, Repr

/-- Fuelled form of the `while spec is None` loop; each pass consumes at
least two tokens, so any fuel above the input length is enough. -/
def speciesLoopGo : Nat → List String → Option (SpecRes × List String)
  | 0, _ => none
  | _ + 1, [] => none
  | fuel + 1, s :: ts =>
    let s' := stripS s
    if s' = "quit" then some (.quit, ts)
    else
      match getValidTok ["1", "2", "3", "c"] ts with
      | none => none
      | some (c, ts') =>
        if c = "c" then speciesLoopGo fuel ts'
        else some (.entry s' ((parseNat c.data).getD 0), ts')

/-- The `while spec is None` loop of `enter_data`: solicit a species (the
stripped `quit` sentinel ends the session), then a confidence token from
`1`, `2`, `3`, `c`, looping back to the species prompt on `c`. -/
def speciesLoop (inp : List String) : Option (SpecRes × List String) :=
  speciesLoopGo (inp.length + 1) inp

/-- Immutable session configuration: the scanned image list, the sample
name, the repro flag, and the committed species filter (`none` when the
`--filter` flag is off). -/
structure Config where
  imgFiles : List String
  sample : String
  repro : Bool
  filt : Option (List String)
deriving DecidableEq, Repr

/-- Mutable session state: the record mapping, the completion registry, the
contents of the rater's own CSV file (`none` while no file exists), and the
cursor. -/
structure St where
  data : Data
  registry : List String
  disk : Option (List (List String))
  imgIdx : Nat
deriving DecidableEq, Repr

/-- Tail of `enter_data` once a species and confidence are in hand (either
freshly solicited or read back from an existing record): in repro mode
solicit the proloculous token, where the `c` sentinel deletes the object's
record and returns without writing; otherwise register the species, store
the record, and rewrite the file. -/
def afterSpec (cfg : Config) (st : St) (idx : Nat) (fname sp : String)
    (cf : PyV) (inp : List String) : Option (Bool × St × List String) :=
  let store : Option String → List String → Option (Bool × St × List String) :=
    fun prolo rest =>
      let reg := register st.registry sp
      let d' := setD st.data fname ⟨sp, cf, prolo⟩
      match writeFile cfg.repro d' with
      | none => none
      | some rows => some (true, ⟨d', reg, some rows, idx⟩, rest)
  if cfg.repro then
    match getValidTok ["mega", "micro", "unk", "c"] inp with
    | none => none
    | some (p, rest) =>
      if p = "c" then
        match lookupD st.data fname with
        | some _ => some (true, ⟨delD st.data fname, st.registry, st.disk, idx⟩, rest)
        | none => none
      else store (some p) rest
  else store none inp

/-- The function `enter_data`: run the skip loop, stop at the end of the
image list, check the filename's sample, read back or solicit species and
confidence, and finish through `afterSpec`. The boolean result is the
Python return value (`false` ends the session); `none` models a raised
exception or exhausted input. -/
def enterData (cfg : Config) (st : St) (inp : List String) :
    Option (Bool × St × List String) :=
  let idx := findNext cfg.repro cfg.filt cfg.imgFiles st.data st.imgIdx
  if h : idx < cfg.imgFiles.length then
    let fname := cfg.imgFiles.get ⟨idx, h⟩
    match splitFilename fname with
    | none => none
    | some (sample, _obj) =>
      if sample ≠ cfg.sample then none
      else
        match lookupD st.data fname with
        | some r => afterSpec cfg st idx fname r.spec r.conf inp
        | none =>
          match speciesLoop inp with
          | none => none
          | some (.quit, rest) => some (false, ⟨st.data, st.registry, st.disk, idx⟩, rest)
          | some (.entry sp cf, rest) => afterSpec cfg st idx fname sp (.int cf) rest
  else some (false, ⟨st.data, st.registry, st.disk, idx⟩, inp)

/-- The entry loop of `_get_species_filter`: read species (stripped, then
lowercased) until a blank entry. -/
def readFilter : List String → Option (List String × List String)
  | [] => none
  | s :: ts =>
    if (stripS s).isEmpty then some ([], ts)
    else
      match readFilter ts with
      | none => none
      | some (fl, rest) => some (lowerS (stripS s) :: fl, rest)

theorem readFilter_length {fl rest} : ∀ {ts : List String},
    readFilter ts = some (fl, rest) → rest.length < ts.length
  | [], h => by simp [readFilter] at h
  | x :: xs, h => by
    by_cases hx : (stripS x).isEmpty
    · simp [readFilter, hx] at h
      simp [h.2]
    · rw [readFilter, if_neg hx] at h
      match hm : readFilter xs with
      | none => rw [hm] at h; exact absurd h (by simp)
      | some (fl', rest') =>
        rw [hm] at h
        have hlen := readFilter_length hm
        simp at h
        simp [← h.2]
        omega

/-- The confirmation loop of `_get_species_filter`: consume tokens until one
whose lowercase form is a substring of `"yn"` (so the empty string, `y`, `n`,
or `yn`, after lowercasing). -/
def confirmTok : List String → Option (String × List String)
  | [] => none
  | t :: ts =>
    if lowerS t ∈ ["", "y", "n", "yn"] then some (t, ts) else confirmTok ts

theorem confirmTok_length {t ts'} : ∀ {ts : List String},
    confirmTok ts = some (t, ts') → ts'.length < ts.length
  | [], h => by simp [confirmTok] at h
  | x :: xs, h => by
    by_cases hx : lowerS x ∈ ["", "y", "n", "yn"]
    · simp [confirmTok, hx] at h
      simp [h.2]
    · simp only [confirmTok, if_neg hx] at h
      have := confirmTok_length h
      simp
      omega

/-- Fuelled form of `_get_species_filter`; each rejected round consumes at
least two tokens, so any fuel above the input length is enough. -/
def getSpeciesFilterGo : Nat → List String → Option (List String × List String)
  | 0, _ => none
  | fuel + 1, inp =>
    match readFilter inp with
    | none => none
    | some (fl, rest) =>
      match confirmTok rest with
      | none => none
      | some (c, rest') =>
        if c = "n" then getSpeciesFilterGo fuel rest' else some (fl, rest')

/-- The function `_get_species_filter`: collect the restriction set, then the
yes/no confirmation; the raw token `n` restarts the whole collection. -/
def getSpeciesFilter (inp : List String) : Option (List String × List String) :=
  getSpeciesFilterGo (inp.length + 1) inp

/-- Failure modes of `Classifier.__init__`, one per raise site reachable
from it (`inputExhausted` stands for input running out at a prompt). -/
inductive InitErr where
  | noImages
  | loadFailed (e : LoadErr)
  | filterRequiresFile
  | mergeFailed (e : MergeErr)
  | inputExhausted
deriving DecidableEq, Repr

/-- The image directory as data: `.jpg` basenames and `.csv` basenames with
their row contents, the latter in directory-scan order. -/
structure Dir where
  jpgs : List String
  csvs : List (String × List (List String))
deriving DecidableEq, Repr

/-- Lookup of a CSV file's rows by basename (`isfile` plus `open`). -/
def lookupCsv : List (String × List (List String)) → String → Option (List (List String))
  | [], _ => none
  | (k', v) :: t, k => if k' = k then some v else lookupCsv t k

/-- Sample name taken in `__init__`: `img_files[0].split('_')[0]`. -/
def sampleOf (f₀ : String) : String :=
  ⟨(splitU f₀.data).headD []⟩

/-- Own CSV filename `self.f` (as a basename). -/
def ownFileName (sample initials : String) : String :=
  sample ++ "_species_" ++ initials ++ ".csv"

/-- The function `Classifier.__init__`: scan and sort the images, derive the
sample name and own filename, load the existing file (failing in filter mode
when none exists), run the consensus merger in `combined` mode, and collect
the species filter in filter mode. The completion registry after loading and
merging equals a `register` fold over the record mapping because records are
registered exactly in insertion order and `register` ignores duplicates. -/
def initClassifier (dir : Dir) (initials : String) (repro filt : Bool)
    (inp : List String) : Except InitErr (Config × St) :=
  match sortStr dir.jpgs with
  | [] => .error .noImages
  | f₀ :: rest =>
    let imgFiles := f₀ :: rest
    let sample := sampleOf f₀
    let f := ownFileName sample initials
    let own := lookupCsv dir.csvs f
    let data₀ : Except InitErr Data :=
      match own with
      | some rows =>
        match loadExisting repro sample imgFiles [] rows with
        | .error e => .error (.loadFailed e)
        | .ok d => .ok d
      | none => if filt then .error .filterRequiresFile else .ok []
    match data₀ with
    | .error e => .error e
    | .ok d₀ =>
      let merged : Except InitErr Data :=
        if initials = "combined" then
          let sibs := dir.csvs.filter fun p => p.1 ≠ f
          match sibs.mapM (fun p => loadExisting repro sample imgFiles [] p.2) with
          | .error e => .error (.loadFailed e)
          | .ok sibData =>
            match findAgreements sibData d₀ with
            | .error e => .error (.mergeFailed e)
            | .ok d₁ => .ok d₁
        else .ok d₀
      match merged with
      | .error e => .error e
      | .ok d₁ =>
        let reg := d₁.foldl (fun r e => register r e.2.spec) []
        let filtSet : Except InitErr (Option (List String)) :=
          if filt then
            match getSpeciesFilter inp with
            | none => .error .inputExhausted
            | some (fl, _) => .ok (some fl)
          else .ok none
        match filtSet with
        | .error e => .error e
        | .ok fs => .ok (⟨imgFiles, sample, repro, fs⟩, ⟨d₁, reg, own, 0⟩)

/-! ### Dictionary lemmas -/

theorem lookupD_setD_self (d : Data) (k : String) (v : Rcd) :
    lookupD (setD d k v) k = some v := by
  induction d with
  | nil => simp [setD, lookupD]
  | cons e t ih =>
    by_cases he : e.1 = k
    · simp [setD, he, lookupD]
    · simpa [setD, he, lookupD] using ih

theorem lookupD_setD_ne (d : Data) (k k' : String) (v : Rcd) (h : k ≠ k') :
    lookupD (setD d k v) k' = lookupD d k' := by
  induction d with
  | nil => simp [setD, lookupD, h]
  | cons e t ih =>
    by_cases he : e.1 = k
    · simp [setD, he, lookupD, h]
    · simp only [setD, if_neg he, lookupD]
      rw [ih]

theorem lookupD_mem {d : Data} {k : String} {r : Rcd}
    (h : lookupD d k = some r) : (k, r) ∈ d := by
  induction d with
  | nil => simp [lookupD] at h
  | cons e t ih =>
    by_cases he : e.1 = k
    · simp only [lookupD, if_pos he] at h
      have he2 : e = (k, r) := by
        cases e
        simp_all
      rw [he2]
      exact List.mem_cons_self _ _
    · simp only [lookupD, if_neg he] at h
      exact List.mem_cons_of_mem _ (ih h)

theorem mem_setD {d : Data} {k : String} {v : Rcd} {e : String × Rcd}
    (h : e ∈ setD d k v) : e ∈ d ∨ e = (k, v) := by
  induction d with
  | nil => simp [setD] at h; simp [h]
  | cons e' t ih =>
    by_cases he : e'.1 = k
    · simp [setD, he] at h
      rcases h with h | h
      · right; simp [h, ← he]
      · left; exact List.mem_cons_of_mem _ h
    · simp only [setD, if_neg he, List.mem_cons] at h
      rcases h with h | h
      · left; simp [h]
      · rcases ih h with h' | h'
        · left; exact List.mem_cons_of_mem _ h'
        · right; exact h'

/-! ### C3 — empty sibling set in combined mode -/

/-- C3 counterexample: a combined session over a directory with an image but
no sibling CSV files fails with the merge error coming from `min` applied to
an empty sequence; the claimed error-free no-op does not happen. -/
theorem consensus_empty_crash_cex :
    initClassifier ⟨["S1_obj00001_plane000.jpg"], []⟩ "combined" false false [] =
      .error (.mergeFailed .noSiblings) := rfl

/-- C3 amended: with zero sibling record files the merger always fails (the
reduction that picks the smallest sibling mapping has no elements), so the
session aborts instead of proceeding; the record mapping is never touched. -/
theorem consensus_empty_crash (d : Data) :
    findAgreements [] d = .error .noSiblings := rfl

/-! ### C10 — merge never overwrites -/

theorem agreeStep_preserves (sibs : List Data) (d : Data) (e : String × Rcd)
    (k : String) (h : (lookupD d k).isSome) :
    lookupD (agreeStep sibs d e) k = lookupD d k := by
  unfold agreeStep
  by_cases h₁ : (lookupD d e.1).isSome
  · simp [h₁]
  · by_cases hk : e.1 = k
    · rw [hk] at h₁; exact absurd h h₁
    · split
      · rfl
      · split
        · rfl
        · split
          · rfl
          · exact lookupD_setD_ne d e.1 k _ hk

theorem foldl_agreeStep_preserves (sibs : List Data) (entries : List (String × Rcd))
    (d : Data) (k : String) (h : (lookupD d k).isSome) :
    lookupD (entries.foldl (agreeStep sibs) d) k = lookupD d k := by
  induction entries generalizing d with
  | nil => rfl
  | cons e t ih =>
    rw [List.foldl_cons, ih _ (by rw [agreeStep_preserves sibs d e k h]; exact h),
      agreeStep_preserves sibs d e k h]

/-- C10: the consensus merger leaves every already-recorded object exactly as
it was — the merged mapping agrees with the original on every key the
original holds, so only unrecorded objects can gain entries. -/
theorem merge_never_overwrites (siblings : List Data) (d₀ d₁ : Data)
    (hm : findAgreements siblings d₀ = .ok d₁) (k : String)
    (h : (lookupD d₀ k).isSome) : lookupD d₁ k = lookupD d₀ k := by
  cases siblings with
  | nil => exact absurd hm (by simp [findAgreements])
  | cons s₀ rest =>
    have : d₁ = (shortestSib s₀ rest).foldl (agreeStep (s₀ :: rest)) d₀ := by
      simpa [findAgreements] using hm.symm
    rw [this]
    exact foldl_agreeStep_preserves _ _ _ _ h

/-- C10 witness: a concrete merge where the combined store already records
the object with species `Bar`; the sibling agreeing on `Foo` does not
overwrite it. -/
theorem merge_never_overwrites_witness :
    lookupD [(genFilename "S1" 1, (⟨"Bar", .int 2, none⟩ : Rcd))] (genFilename "S1" 1) =
      some ⟨"Bar", .int 2, none⟩ :=
  (merge_never_overwrites
    [[(genFilename "S1" 1, ⟨"Foo", .str "3", none⟩)]]
    [(genFilename "S1" 1, ⟨"Bar", .int 2, none⟩)]
    [(genFilename "S1" 1, ⟨"Bar", .int 2, none⟩)]
    rfl (genFilename "S1" 1) (by decide)).trans (by decide)

/-! ### C4 — skip logic -/

/-- C4: an object within range is skipped exactly when it already has a
record and either the session is in plain mode, or it is in repro mode with
the record's secondary attribute non-empty, or a species filter is active and
the record's lowercased species is outside the restriction set. The records
of a repro session carry the secondary-attribute slot (`prolo`), which the
hypothesis `hrec` states. -/
theorem skip_iff_claim (repro : Bool) (filt : Option (List String))
    (imgFiles : List String) (d : Data) (idx : Nat) (h : idx < imgFiles.length)
    (hrec : ∀ e ∈ d, repro = true → e.2.prolo.isSome) :
    skip repro filt imgFiles d idx = true ↔
      ∃ r, lookupD d (imgFiles.get ⟨idx, h⟩) = some r ∧
        (repro = false ∨
          (repro = true ∧ r.prolo ≠ some "") ∨
          (∃ fl, filt = some fl ∧ lowerS r.spec ∉ fl)) := by
  unfold skip
  rw [dif_pos h]
  cases hl : lookupD d (imgFiles.get ⟨idx, h⟩) with
  | none => simp
  | some r =>
    simp only [hl, Option.some.injEq]
    cases repro with
    | false => simp
    | true =>
      obtain ⟨p, hp0⟩ := Option.isSome_iff_exists.mp (hrec _ (lookupD_mem hl) rfl)
      have hp : r.prolo = some p := hp0
      have hlast : lastSlot r = .str p := by simp [lastSlot, hp]
      by_cases hpe : p = ""
      · subst hpe
        cases filt with
        | none => simp [hlast, hp]
        | some fl => by_cases hfl : lowerS r.spec ∈ fl <;> simp [hlast, hp, hfl]
      · simp [hlast, hp, hpe]

/-- C4 witness: in a repro session with filter set `fv`, a recorded
object of species `Bar` with an empty secondary attribute is skipped. -/
theorem skip_iff_claim_witness :
    skip true (some ["foo"]) ["S1_obj00001_plane000.jpg"]
      [("S1_obj00001_plane000.jpg", ⟨"Bar", .str "2", some ""⟩)] 0 = true ↔
      ∃ r, lookupD [("S1_obj00001_plane000.jpg", (⟨"Bar", .str "2", some ""⟩ : Rcd))]
          (["S1_obj00001_plane000.jpg"].get ⟨0, by decide⟩) = some r ∧
        (true = false ∨
          (true = true ∧ r.prolo ≠ some "") ∨
          (∃ fl, (some ["foo"] : Option (List String)) = some fl ∧ lowerS r.spec ∉ fl)) :=
  skip_iff_claim true (some ["foo"]) ["S1_obj00001_plane000.jpg"]
    [("S1_obj00001_plane000.jpg", ⟨"Bar", .str "2", some ""⟩)] 0 (by decide) (by decide)

/-! ### C6 — header and schema handling -/

theorem unpackRow_error_cases {inRepro : Bool} {row : List String} {e : LoadErr}
    (h : unpackRow inRepro row = .error e) : e = .badRow := by
  unfold unpackRow at h
  split at h <;> (repeat' split at h) <;> simp_all

theorem loadRow_error_cases {repro inRepro : Bool} {sample : String}
    {imgs : List String} {d : Data} {row : List String} {e : LoadErr}
    (h : loadRow repro inRepro sample imgs d row = .error e) :
    e ≠ .emptyFile ∧ e ≠ .schemaMismatch := by
  unfold loadRow at h
  cases hu : unpackRow inRepro row with
  | error e' =>
    rw [hu] at h
    cases h
    simp [unpackRow_error_cases hu]
  | ok q =>
    obtain ⟨name, obj, spec, conf, prolo⟩ := q
    rw [hu] at h
    dsimp only at h
    cases hp : parseNat obj.data with
    | none => rw [hp] at h; cases h; exact ⟨by decide, by decide⟩
    | some objNum =>
      rw [hp] at h
      repeat' split at h
      all_goals cases h
      all_goals exact ⟨by decide, by decide⟩

theorem foldlM_loadRow_error_cases {repro inRepro : Bool} {sample : String}
    {imgs : List String} {e : LoadErr} :
    ∀ {rows : List (List String)} {d : Data},
    List.foldlM (loadRow repro inRepro sample imgs) d rows = .error e →
    e ≠ .emptyFile ∧ e ≠ .schemaMismatch
  | [], d, h => by simp [List.foldlM, pure, Except.pure] at h
  | row :: rest, d, h => by
    rw [List.foldlM_cons] at h
    cases hr : loadRow repro inRepro sample imgs d row with
    | error e' =>
      rw [hr] at h
      simp only [bind, Except.bind] at h
      cases h
      exact loadRow_error_cases hr
    | ok d' =>
      rw [hr] at h
      simp only [bind, Except.bind] at h
      exact foldlM_loadRow_error_cases h

theorem mem_foldlM_loadRow_prolo {sample : String} {imgs : List String} :
    ∀ {rows : List (List String)} {d res : Data},
    (∀ e ∈ d, e.2.prolo = some "") →
    List.foldlM (loadRow true false sample imgs) d rows = .ok res →
    ∀ e ∈ res, e.2.prolo = some ""
  | [], d, res, hd, h => by
    simp [List.foldlM, pure, Except.pure] at h
    simpa [← h] using hd
  | row :: rest, d, res, hd, h => by
    rw [List.foldlM_cons] at h
    cases hr : loadRow true false sample imgs d row with
    | error e' =>
      rw [hr] at h
      simp only [bind, Except.bind] at h
      cases h
    | ok d' =>
      rw [hr] at h
      simp only [bind, Except.bind] at h
      refine mem_foldlM_loadRow_prolo ?_ h
      intro e he
      unfold loadRow at hr
      cases hu : unpackRow false row with
      | error e' => rw [hu] at hr; cases hr
      | ok q =>
        obtain ⟨name, obj, spec, conf, prolo⟩ := q
        have hpr : prolo = "" := by
          unfold unpackRow at hu
          simp only [Bool.false_eq_true, if_false] at hu
          split at hu <;> simp_all
        rw [hu] at hr
        dsimp only at hr
        cases hp : parseNat obj.data with
        | none => rw [hp] at hr; cases hr
        | some objNum =>
          rw [hp] at hr
          repeat' split at hr
          all_goals cases hr
          all_goals try exact absurd rfl (by assumption)
          rcases mem_setD he with h' | h'
          · exact hd _ h'
          · simp [h', hpr]

/-- C6: loading an empty file fails with the empty-file error; a header that
is neither accepted variant fails with the schema error; a plain-variant
header loads in repro mode with every record's secondary attribute defaulted
to the empty string (and never raises the empty-file or schema errors); and
the repro-variant header always fails to load in plain mode. -/
theorem load_header_rules (repro : Bool) (sample : String) (imgs : List String)
    (header : List String) (rows : List (List String)) :
    (loadExisting repro sample imgs [] [] = .error .emptyFile) ∧
    (header ≠ plainHeaders → header ≠ csvHeaders true →
      loadExisting repro sample imgs [] (header :: rows) = .error .schemaMismatch) ∧
    (∀ d, loadExisting true sample imgs [] (plainHeaders :: rows) = .ok d →
      ∀ e ∈ d, e.2.prolo = some "") ∧
    (loadExisting true sample imgs [] (plainHeaders :: rows) ≠ .error .emptyFile ∧
      loadExisting true sample imgs [] (plainHeaders :: rows) ≠ .error .schemaMismatch) ∧
    (loadExisting false sample imgs [] (csvHeaders true :: rows) = .error .schemaMismatch) := by
  have hdl : (csvHeaders true).dropLast = plainHeaders := by decide
  have hne : plainHeaders ≠ csvHeaders true := by decide
  refine ⟨rfl, ?_, ?_, ?_, ?_⟩
  · intro h1 h2
    cases repro with
    | false =>
      have : header ≠ csvHeaders false := by simpa [csvHeaders] using h1
      simp [loadExisting, this]
    | true =>
      have : header ≠ csvHeaders true := h2
      simp [loadExisting, this, hdl, h1]
  · intro d hload
    rw [loadExisting, if_neg (by simp [csvHeaders, plainHeaders]), if_pos (by simp [hdl])] at hload
    exact mem_foldlM_loadRow_prolo (by simp) hload
  · rw [loadExisting, if_neg (by simp [csvHeaders, plainHeaders]), if_pos (by simp [hdl])]
    constructor
    · intro hc
      exact absurd rfl (foldlM_loadRow_error_cases hc).1
    · intro hc
      exact absurd rfl (foldlM_loadRow_error_cases hc).2
  · simp [loadExisting, csvHeaders, plainHeaders]

/-- C6 witness: instantiation at the plain header and one valid row in repro
mode — the load succeeds and defaults the secondary attribute to empty. -/
theorem load_header_rules_witness :
    ∀ d, loadExisting true "S1" [genFilename "S1" 1] []
        (plainHeaders :: [["S1", "00001", "Foo", "2"]]) = .ok d →
      ∀ e ∈ d, e.2.prolo = some "" :=
  (load_header_rules true "S1" [genFilename "S1" 1] [] [["S1", "00001", "Foo", "2"]]).2.2.1

/-! ### C9 — filter mode requires an existing file -/

/-- C9: when the `--filter` flag is set and no record file exists at the
per-rater path, `__init__` fails with the filter-requires-file error before
any annotation can occur; no state (and no file) is produced. -/
theorem filter_requires_file (dir : Dir) (initials : String) (repro : Bool)
    (inp : List String) (f₀ : String) (rest : List String)
    (hs : sortStr dir.jpgs = f₀ :: rest)
    (hf : lookupCsv dir.csvs (ownFileName (sampleOf f₀) initials) = none) :
    initClassifier dir initials repro true inp = .error .filterRequiresFile := by
  unfold initClassifier
  rw [hs]
  simp [hf]

/-- C9 witness: a directory with one image and no CSV files rejects a filter
session. -/
theorem filter_requires_file_witness :
    initClassifier ⟨["S1_obj00001_plane000.jpg"], []⟩ "ab" false true [] =
      .error .filterRequiresFile :=
  filter_requires_file ⟨["S1_obj00001_plane000.jpg"], []⟩ "ab" false []
    "S1_obj00001_plane000.jpg" [] rfl rfl

/-! ### C1 — unanimous-consensus rule -/

theorem agreeStep_lookup_ne (sibs : List Data) (d : Data) (e : String × Rcd)
    (k : String) (h : e.1 ≠ k) :
    lookupD (agreeStep sibs d e) k = lookupD d k := by
  unfold agreeStep
  split
  · rfl
  · split
    · rfl
    · split
      · rfl
      · exact lookupD_setD_ne d e.1 k _ h

theorem foldl_agreeStep_not_mem (sibs : List Data) (entries : List (String × Rcd))
    (d : Data) (k : String) (hk : k ∉ entries.map Prod.fst)
    (h : lookupD d k = none) :
    lookupD (entries.foldl (agreeStep sibs) d) k = none := by
  induction entries generalizing d with
  | nil => exact h
  | cons e t ih =>
    simp only [List.map_cons, List.mem_cons] at hk
    push_neg at hk
    rw [List.foldl_cons]
    exact ih _ hk.2 ((agreeStep_lookup_ne sibs d e k (Ne.symm hk.1)).trans h)

theorem foldl_agreeStep_lookup (sibs : List Data) (entries : List (String × Rcd))
    (d : Data) (k : String) (hnd : (entries.map Prod.fst).Nodup)
    (hk : lookupD d k = none) :
    lookupD (entries.foldl (agreeStep sibs) d) k =
      match lookupD entries k with
      | none => none
      | some rs =>
        if (sibs.all fun m => (lookupD m k).isSome) ∧
            ¬ 1 < (siblingSpecies sibs k).dedup.length
        then some ⟨rs.spec, .int 3, none⟩ else none := by
  induction entries generalizing d with
  | nil => simpa [lookupD] using hk
  | cons e t ih =>
    simp only [List.map_cons, List.nodup_cons] at hnd
    by_cases he : e.1 = k
    · rw [List.foldl_cons]
      have hstep : agreeStep sibs d e =
          if (sibs.all fun m => (lookupD m e.1).isSome) ∧
              ¬ 1 < (siblingSpecies sibs e.1).dedup.length
          then setD d e.1 ⟨e.2.spec, .int 3, none⟩ else d := by
        unfold agreeStep
        rw [he, if_neg (by simp [hk])]
        split
        · rw [if_neg (by tauto)]
        · split
          · rw [if_neg (by tauto)]
          · rw [if_pos (by tauto)]
      rw [hstep]
      by_cases hc : (sibs.all fun m => (lookupD m e.1).isSome) ∧
          ¬ 1 < (siblingSpecies sibs e.1).dedup.length
      · rw [if_pos hc]
        have hmem : k ∉ t.map Prod.fst := he ▸ hnd.1
        have : lookupD (setD d e.1 ⟨e.2.spec, .int 3, none⟩) k = some ⟨e.2.spec, .int 3, none⟩ := by
          rw [he]; exact lookupD_setD_self d k _
        rw [foldl_agreeStep_preserves _ _ _ _ (by simp [this]), this, lookupD, if_pos he]
        rw [he] at hc
        dsimp only
        rw [if_pos hc]
      · rw [if_neg hc]
        have hmem : k ∉ t.map Prod.fst := he ▸ hnd.1
        rw [foldl_agreeStep_not_mem sibs t d k hmem hk, lookupD, if_pos he]
        rw [he] at hc
        dsimp only
        rw [if_neg hc]
    · rw [List.foldl_cons, ih _ hnd.2 ((agreeStep_lookup_ne sibs d e k he).trans hk),
        lookupD, if_neg he]

theorem shortestSib_mem (s₀ : Data) (rest : List Data) :
    shortestSib s₀ rest ∈ s₀ :: rest := by
  unfold shortestSib
  induction rest generalizing s₀ with
  | nil => simp
  | cons x t ih =>
    rw [List.foldl_cons]
    by_cases hx : x.length < s₀.length
    · rw [if_pos hx]
      exact List.mem_cons_of_mem _ (ih x)
    · rw [if_neg hx]
      rcases List.mem_cons.mp (ih s₀) with h | h
      · exact List.mem_cons.mpr (Or.inl h)
      · exact List.mem_cons_of_mem _ (List.mem_cons_of_mem _ h)

theorem dedup_le_one_iff {l : List String} :
    ¬ 1 < l.dedup.length ↔ ∀ a ∈ l, ∀ b ∈ l, a = b := by
  constructor
  · intro h a ha b hb
    have ha' := List.mem_dedup.mpr ha
    have hb' := List.mem_dedup.mpr hb
    match hd : l.dedup with
    | [] => rw [hd] at ha'; cases ha'
    | [c] =>
      rw [hd] at ha' hb'
      simp at ha' hb'
      rw [ha', hb']
    | c₁ :: c₂ :: cs => rw [hd] at h; simp at h
  · intro h
    match hd : l.dedup with
    | [] => simp
    | [c] => simp
    | c₁ :: c₂ :: cs =>
      exfalso
      have hnd := l.nodup_dedup
      rw [hd] at hnd
      have h₁ : c₁ ∈ l := List.mem_dedup.mp (by rw [hd]; simp)
      have h₂ : c₂ ∈ l := List.mem_dedup.mp (by rw [hd]; simp)
      have := h c₁ h₁ c₂ h₂
      simp [this] at hnd

theorem mem_siblingSpecies {sibs : List Data} {k : String} {x : String} :
    x ∈ siblingSpecies sibs k ↔
      ∃ m ∈ sibs, ∃ rm, lookupD m k = some rm ∧ x = stripS (lowerS rm.spec) := by
  unfold siblingSpecies
  rw [List.mem_filterMap]
  constructor
  · rintro ⟨m, hm, hx⟩
    cases hl : lookupD m k with
    | none => rw [hl] at hx; cases hx
    | some rm =>
      rw [hl] at hx
      simp at hx
      exact ⟨m, hm, rm, hl, hx.symm⟩
  · rintro ⟨m, hm, rm, hl, hx⟩
    exact ⟨m, hm, by simp [hl, hx]⟩

theorem codeCond_iff_unanimous (sibs : List Data) (k : String) (shortest : Data)
    (hmem : shortest ∈ sibs) (rs : Rcd) (hrs : lookupD shortest k = some rs) :
    ((sibs.all fun m => (lookupD m k).isSome) ∧
      ¬ 1 < (siblingSpecies sibs k).dedup.length) ↔
    ∀ m ∈ sibs, ∃ rm, lookupD m k = some rm ∧
      stripS (lowerS rm.spec) = stripS (lowerS rs.spec) := by
  constructor
  · rintro ⟨hall, hded⟩ m hm
    have hms := (List.all_eq_true.mp hall) m hm
    obtain ⟨rm, hrm⟩ := Option.isSome_iff_exists.mp (by simpa using hms)
    refine ⟨rm, hrm, ?_⟩
    have hx : stripS (lowerS rm.spec) ∈ siblingSpecies sibs k :=
      mem_siblingSpecies.mpr ⟨m, hm, rm, hrm, rfl⟩
    have hy : stripS (lowerS rs.spec) ∈ siblingSpecies sibs k :=
      mem_siblingSpecies.mpr ⟨shortest, hmem, rs, hrs, rfl⟩
    exact dedup_le_one_iff.mp hded _ hx _ hy
  · intro h
    constructor
    · rw [List.all_eq_true]
      intro m hm
      obtain ⟨rm, hrm, _⟩ := h m hm
      simp [hrm]
    · rw [dedup_le_one_iff]
      intro a ha b hb
      obtain ⟨m, hm, rm, hl, hx⟩ := mem_siblingSpecies.mp ha
      obtain ⟨m', hm', rm', hl', hx'⟩ := mem_siblingSpecies.mp hb
      obtain ⟨_, hrm2, he⟩ := h m hm
      obtain ⟨_, hrm2', he'⟩ := h m' hm'
      rw [hrm2] at hl
      rw [hrm2'] at hl'
      cases hl
      cases hl'
      rw [hx, hx', he, he']

/-- C1: in combined mode, for an object not already recorded, the merger
adds it — with the shortest sibling's species string and confidence 3 —
exactly when the object is present in the first sibling mapping of minimal
size, present in every sibling mapping, and every sibling's species agrees
with it after lowercasing and whitespace-stripping; any disagreement keeps
the object out. -/
theorem consensus_unanimity (s₀ : Data) (rest : List Data) (d₀ d₁ : Data)
    (k : String) (r : Rcd)
    (hm : findAgreements (s₀ :: rest) d₀ = .ok d₁)
    (hnd : ((shortestSib s₀ rest).map Prod.fst).Nodup)
    (hk : lookupD d₀ k = none) :
    lookupD d₁ k = some r ↔
      ∃ rs, lookupD (shortestSib s₀ rest) k = some rs ∧
        (∀ m ∈ s₀ :: rest, ∃ rm, lookupD m k = some rm ∧
          stripS (lowerS rm.spec) = stripS (lowerS rs.spec)) ∧
        r = ⟨rs.spec, .int 3, none⟩ := by
  have hd : d₁ = (shortestSib s₀ rest).foldl (agreeStep (s₀ :: rest)) d₀ := by
    simpa [findAgreements] using hm.symm
  rw [hd, foldl_agreeStep_lookup (s₀ :: rest) (shortestSib s₀ rest) d₀ k hnd hk]
  cases hrs : lookupD (shortestSib s₀ rest) k with
  | none => simp
  | some rs =>
    dsimp only
    have hbridge := codeCond_iff_unanimous (s₀ :: rest) k _ (shortestSib_mem s₀ rest) rs hrs
    by_cases hc : ((s₀ :: rest).all fun m => (lookupD m k).isSome) = true ∧
        ¬ 1 < (siblingSpecies (s₀ :: rest) k).dedup.length
    · rw [if_pos hc]
      have hcc := hbridge.mp hc
      simp only [Option.some.injEq]
      constructor
      · intro h
        exact ⟨rs, rfl, hcc, h.symm⟩
      · rintro ⟨rs', hrs', _, hr⟩
        cases hrs'
        rw [hr]
    · rw [if_neg hc]
      constructor
      · intro h
        cases h
      · rintro ⟨rs', hrs', hc', _⟩
        cases hrs'
        exact absurd (hbridge.mpr hc') hc

/-- C1 witness: two siblings agreeing on `Foo` up to case and whitespace;
the merger adds the object at confidence 3 with the shortest sibling's
casing, and the characterization instantiates to it. -/
theorem consensus_unanimity_witness :
    lookupD [(genFilename "S1" 1, (⟨"Foo", .int 3, none⟩ : Rcd))] (genFilename "S1" 1) =
        some ⟨"Foo", .int 3, none⟩ ↔
      ∃ rs, lookupD (shortestSib [(genFilename "S1" 1, ⟨"Foo", .str "2", none⟩)]
          [[(genFilename "S1" 1, ⟨" FOO ", .str "3", none⟩),
            (genFilename "S1" 2, ⟨"Baz", .str "1", none⟩)]]) (genFilename "S1" 1) = some rs ∧
        (∀ m ∈ [(genFilename "S1" 1, (⟨"Foo", .str "2", none⟩ : Rcd))] ::
            [[(genFilename "S1" 1, ⟨" FOO ", .str "3", none⟩),
              (genFilename "S1" 2, ⟨"Baz", .str "1", none⟩)]],
          ∃ rm, lookupD m (genFilename "S1" 1) = some rm ∧
            stripS (lowerS rm.spec) = stripS (lowerS rs.spec)) ∧
        (⟨"Foo", .int 3, none⟩ : Rcd) = ⟨rs.spec, .int 3, none⟩ :=
  consensus_unanimity _ _ [] _ _ _ rfl (by decide) rfl

/-! ### C7 — write-through persistence -/

theorem lookupD_delD_none {d : Data} {k k' : String}
    (h : lookupD d k = none) : lookupD (delD d k') k = none := by
  induction d with
  | nil => rfl
  | cons e t ih =>
    by_cases he : e.1 = k'
    · rw [delD, if_pos he]
      rw [lookupD] at h
      split at h
      · cases h
      · exact h
    · rw [delD, if_neg he]
      rw [lookupD] at h
      rw [lookupD]
      split at h
      · cases h
      · next hne => rw [if_neg hne]; exact ih h

theorem afterSpec_write_through (cfg : Config) (st : St) (idx : Nat)
    (fname sp : String) (cf : PyV) (inp : List String) (b : Bool) (st' : St)
    (rest : List String)
    (h : afterSpec cfg st idx fname sp cf inp = some (b, st', rest)) :
    st'.disk = writeFile cfg.repro st'.data ∨
    (∃ r, lookupD st.data fname = some r ∧ st'.data = delD st.data fname ∧
      st'.disk = st.disk) := by
  unfold afterSpec at h
  simp only [] at h
  split at h
  · split at h
    · cases h
    · next p rest' heq =>
      split at h
      · split at h
        · next r hr =>
          cases h
          exact Or.inr ⟨r, hr, rfl, rfl⟩
        · cases h
      · split at h
        · cases h
        · next rows hw =>
          cases h
          exact Or.inl hw.symm
  · split at h
    · cases h
    · next rows hw =>
      cases h
      exact Or.inl hw.symm

/-- C7 counterexample: in a repro session, answering `c` at the proloculous
prompt for an already-recorded object deletes the record from the mapping
and returns without rewriting the file — the disk still holds the removed
row, so the persisted file does not reflect the in-memory mapping. -/
theorem write_through_cex :
    enterData ⟨["S1_obj00001_plane000.jpg"], "S1", true, none⟩
        ⟨[("S1_obj00001_plane000.jpg", ⟨"Foo", .str "2", some ""⟩)], ["Foo"],
          some [["Sample Name", "Obj. #", "Species", "Confidence", "Proloculous"],
                ["S1", "00001", "Foo", "2", ""]], 0⟩
        ["c"] =
      some (true, ⟨[], ["Foo"],
        some [["Sample Name", "Obj. #", "Species", "Confidence", "Proloculous"],
              ["S1", "00001", "Foo", "2", ""]], 0⟩, []) ∧
    (some [["Sample Name", "Obj. #", "Species", "Confidence", "Proloculous"],
           ["S1", "00001", "Foo", "2", ""]] : Option (List (List String))) ≠
      writeFile true [] := by
  constructor
  · decide
  · decide

/-- C7 amended: a successful annotation step either leaves the mapping and
the disk untouched, or ends with the disk equal to the full rewrite of the
new mapping (every insertion and overwrite is written through), or performs
the correction-flow removal, which deletes the object's record and leaves
the disk unchanged; and session construction itself never writes — the disk
after `__init__` is exactly the file that already existed, even when the
consensus merger has seeded new entries. -/
theorem write_through_amended :
    (∀ (cfg : Config) (st : St) (inp : List String) (b : Bool) (st' : St)
      (rest : List String), enterData cfg st inp = some (b, st', rest) →
      (st'.data = st.data ∧ st'.disk = st.disk) ∨
      st'.disk = writeFile cfg.repro st'.data ∨
      (∃ k r, lookupD st.data k = some r ∧ st'.data = delD st.data k ∧
        st'.disk = st.disk)) ∧
    (∀ (dir : Dir) (initials : String) (repro filt : Bool) (inp : List String)
      (cfg : Config) (st : St),
      initClassifier dir initials repro filt inp = .ok (cfg, st) →
      st.disk = lookupCsv dir.csvs (ownFileName cfg.sample initials)) := by
  constructor
  · intro cfg st inp b st' rest h
    unfold enterData at h
    simp only [] at h
    repeat' split at h
    all_goals try cases h
    all_goals try exact Or.inl ⟨rfl, rfl⟩
    all_goals
      rcases afterSpec_write_through _ _ _ _ _ _ _ _ _ _ h with hw | ⟨r', hr', hd, hk⟩
    all_goals first
      | exact Or.inr (Or.inl hw)
      | exact Or.inr (Or.inr ⟨_, r', hr', hd, hk⟩)
  · intro dir initials repro filt inp cfg st h
    unfold initClassifier at h
    simp only [] at h
    repeat' split at h
    all_goals cases h
    all_goals rfl

/-- C7 witness: the no-op branch of the amended step characterization at a
session whose single image is already recorded, and the never-writes branch
at a fresh plain construction. -/
theorem write_through_amended_witness :
    (⟨[("S1_obj00001_plane000.jpg", (⟨"Foo", .int 2, none⟩ : Rcd))], ["Foo"], none, 1⟩ : St).data =
        (⟨[("S1_obj00001_plane000.jpg", (⟨"Foo", .int 2, none⟩ : Rcd))], ["Foo"], none, 0⟩ : St).data ∧
      (⟨[("S1_obj00001_plane000.jpg", (⟨"Foo", .int 2, none⟩ : Rcd))], ["Foo"], none, 1⟩ : St).disk =
        (⟨[("S1_obj00001_plane000.jpg", (⟨"Foo", .int 2, none⟩ : Rcd))], ["Foo"], none, 0⟩ : St).disk := by
  rcases write_through_amended.1 ⟨["S1_obj00001_plane000.jpg"], "S1", false, none⟩
      ⟨[("S1_obj00001_plane000.jpg", ⟨"Foo", .int 2, none⟩)], ["Foo"], none, 0⟩ [] false
      ⟨[("S1_obj00001_plane000.jpg", ⟨"Foo", .int 2, none⟩)], ["Foo"], none, 1⟩ []
      (by decide) with h | h | h
  · exact h
  · exact absurd h (by decide)
  · obtain ⟨k, r, hr, hd, hk⟩ := h
    dsimp only at hr hd
    rw [lookupD] at hr
    split at hr
    · next hf =>
      rw [← hf] at hd
      exact absurd hd (by decide)
    · simp [lookupD] at hr

/-! ### C8 — record-field validity -/

theorem getValidTok_mem {valid : List String} {t : String} {ts' : List String} :
    ∀ {ts : List String}, getValidTok valid ts = some (t, ts') → t ∈ valid
  | [], h => by simp [getValidTok] at h
  | x :: xs, h => by
    by_cases hx : x ∈ valid
    · simp [getValidTok, hx] at h
      rw [← h.1]
      exact hx
    · simp only [getValidTok, if_neg hx] at h
      exact getValidTok_mem h

theorem speciesLoopGo_conf {sp : String} {cf : Nat} {rest : List String} :
    ∀ {fuel : Nat} {inp : List String},
    speciesLoopGo fuel inp = some (.entry sp cf, rest) →
    cf = 1 ∨ cf = 2 ∨ cf = 3
  | 0, _, h => by simp [speciesLoopGo] at h
  | fuel + 1, [], h => by simp [speciesLoopGo] at h
  | fuel + 1, s :: ts, h => by
    rw [speciesLoopGo] at h
    split at h
    · simp at h
    · split at h
      · cases h
      · next c ts' heq =>
        split at h
        · exact speciesLoopGo_conf h
        · next hc =>
          have hmem := getValidTok_mem heq
          cases h
          simp at hmem
          rcases hmem with rfl | rfl | rfl | rfl
          · left; rfl
          · right; left; rfl
          · right; right; rfl
          · exact absurd rfl hc

theorem afterSpec_new_entry (cfg : Config) (st : St) (idx : Nat) (fname sp : String)
    (cf : PyV) (inp : List String) (b : Bool) (st' : St) (rest : List String)
    (h : afterSpec cfg st idx fname sp cf inp = some (b, st', rest))
    (k : String) (hk : lookupD st.data k = none) (r : Rcd)
    (hr : lookupD st'.data k = some r) :
    k = fname ∧ r.spec = sp ∧ r.conf = cf ∧
      ((cfg.repro = true ∧
          (r.prolo = some "mega" ∨ r.prolo = some "micro" ∨ r.prolo = some "unk")) ∨
        (cfg.repro = false ∧ r.prolo = none)) := by
  unfold afterSpec at h
  simp only [] at h
  split at h
  · next hrep =>
    split at h
    · cases h
    · next p rest' heq =>
      split at h
      · split at h
        · cases h
          dsimp only at hr
          rw [lookupD_delD_none hk] at hr
          cases hr
        · cases h
      · next hpc =>
        split at h
        · cases h
        · next rows hw =>
          cases h
          dsimp only at hr
          by_cases hkf : k = fname
          · subst hkf
            rw [lookupD_setD_self] at hr
            have hrr : r = ⟨sp, cf, some p⟩ := by cases hr; rfl
            have hpm := getValidTok_mem heq
            simp at hpm
            refine ⟨rfl, by rw [hrr], by rw [hrr], Or.inl ⟨hrep, ?_⟩⟩
            rcases hpm with rfl | rfl | rfl | rfl
            · left; rw [hrr]
            · right; left; rw [hrr]
            · right; right; rw [hrr]
            · exact absurd rfl hpc
          · rw [lookupD_setD_ne _ _ _ _ (fun he => hkf he.symm), hk] at hr
            cases hr
  · next hrep =>
    split at h
    · cases h
    · next rows hw =>
      cases h
      dsimp only at hr
      by_cases hkf : k = fname
      · subst hkf
        rw [lookupD_setD_self] at hr
        have hrr : r = ⟨sp, cf, none⟩ := by cases hr; rfl
        exact ⟨rfl, by rw [hrr], by rw [hrr],
          Or.inr ⟨Bool.not_eq_true cfg.repro ▸ hrep, by rw [hrr]⟩⟩
      · rw [lookupD_setD_ne _ _ _ _ (fun he => hkf he.symm), hk] at hr
        cases hr

/-- C8 counterexample: a plain-schema file whose confidence field is `7`
loads without any validation; the stored record's confidence is the raw
string `7`, not an integer in the 1..3 range. -/
theorem record_validity_cex :
    loadExisting false "S1" [genFilename "S1" 1] []
        [plainHeaders, ["S1", "00001", "Foo", "7"]] =
      .ok [(genFilename "S1" 1, ⟨"Foo", .str "7", none⟩)] ∧
    (⟨"Foo", .str "7", none⟩ : Rcd).conf ∉ [PyV.int 1, PyV.int 2, PyV.int 3] := by
  constructor
  · rfl
  · decide

/-- C8 amended: records freshly entered through the solicitation loop do
satisfy the claimed invariant — confidence is an integer in 1..3, and the
secondary attribute is `mega`/`micro`/`unk` in repro mode and absent in
plain mode; but records loaded from an existing file keep the file's
confidence and secondary-attribute fields verbatim as strings, with no
validation at all. -/
theorem record_validity_amended :
    (∀ (cfg : Config) (st : St) (inp : List String) (b : Bool) (st' : St)
      (rest : List String) (k : String) (r : Rcd),
      enterData cfg st inp = some (b, st', rest) →
      lookupD st.data k = none → lookupD st'.data k = some r →
      (r.conf = .int 1 ∨ r.conf = .int 2 ∨ r.conf = .int 3) ∧
        (cfg.repro = true →
          r.prolo = some "mega" ∨ r.prolo = some "micro" ∨ r.prolo = some "unk") ∧
        (cfg.repro = false → r.prolo = none)) ∧
    (∀ (sample obj spec conf prolo : String) (imgs : List String) (n : Nat),
      parseNat obj.data = some n → genFilename sample n ∈ imgs →
      loadExisting true sample imgs [] [csvHeaders true, [sample, obj, spec, conf, prolo]] =
        .ok [(genFilename sample n, ⟨spec, .str conf, some prolo⟩)]) := by
  constructor
  · intro cfg st inp b st' rest k r h hk hr
    unfold enterData at h
    simp only [] at h
    split at h
    · split at h
      · cases h
      · split at h
        · cases h
        · split at h
          · next r₀ hr₀ =>
            obtain ⟨hkf, _, _, _⟩ :=
              afterSpec_new_entry _ _ _ _ _ _ _ _ _ _ h k hk r hr
            rw [hkf] at hk
            rw [hk] at hr₀
            cases hr₀
          · split at h
            · cases h
            · cases h
              dsimp only at hr
              rw [hk] at hr
              cases hr
            · next sp cf rest' heq =>
              obtain ⟨hkf, hsp, hcf, hpr⟩ :=
                afterSpec_new_entry _ _ _ _ _ _ _ _ _ _ h k hk r hr
              have hcfv : cf = 1 ∨ cf = 2 ∨ cf = 3 := speciesLoopGo_conf heq
              refine ⟨?_, ?_, ?_⟩
              · rcases hcfv with rfl | rfl | rfl
                · left; rw [hcf]
                · right; left; rw [hcf]
                · right; right; rw [hcf]
              · intro hrep
                rcases hpr with ⟨_, hp⟩ | ⟨hf, _⟩
                · exact hp
                · rw [hrep] at hf; cases hf
              · intro hrep
                rcases hpr with ⟨ht, _⟩ | ⟨_, hp⟩
                · rw [hrep] at ht; cases ht
                · exact hp
    · cases h
      dsimp only at hr
      rw [hk] at hr
      cases hr
  · intro sample obj spec conf prolo imgs n hp hm
    unfold loadExisting
    dsimp only
    rw [if_pos rfl]
    rw [List.foldlM_cons]
    unfold loadRow unpackRow
    simp [hp, hm, lookupD, setD, bind, Except.bind, pure, Except.pure, List.foldlM_nil]

/-- C8 witness: entering species `Foo` with confidence `2` in a plain
session stores a record with integer confidence 2 and no secondary
attribute. -/
theorem record_validity_witness :
    ((⟨"Foo", .int 2, none⟩ : Rcd).conf = .int 1 ∨
      (⟨"Foo", .int 2, none⟩ : Rcd).conf = .int 2 ∨
      (⟨"Foo", .int 2, none⟩ : Rcd).conf = .int 3) ∧
    ((⟨["S1_obj00001_plane000.jpg"], "S1", false, none⟩ : Config).repro = true →
      (⟨"Foo", .int 2, none⟩ : Rcd).prolo = some "mega" ∨
      (⟨"Foo", .int 2, none⟩ : Rcd).prolo = some "micro" ∨
      (⟨"Foo", .int 2, none⟩ : Rcd).prolo = some "unk") ∧
    ((⟨["S1_obj00001_plane000.jpg"], "S1", false, none⟩ : Config).repro = false →
      (⟨"Foo", .int 2, none⟩ : Rcd).prolo = none) :=
  record_validity_amended.1 ⟨["S1_obj00001_plane000.jpg"], "S1", false, none⟩
    ⟨[], [], none, 0⟩ ["Foo", "2"] true
    ⟨[("S1_obj00001_plane000.jpg", ⟨"Foo", .int 2, none⟩)], ["Foo"],
      some [["Sample Name", "Obj. #", "Species", "Confidence"], ["S1", "00001", "Foo", "2"]], 0⟩
    [] "S1_obj00001_plane000.jpg" ⟨"Foo", .int 2, none⟩
    (by decide) rfl (by decide)

/-! ### Decimal representation facts -/

/-- Value of a most-significant-first digit list. -/
def valN (ds : List Nat) : Nat :=
  ds.foldl (fun a d => a * 10 + d) 0

theorem natDigitsGo_extra (n : Nat) : ∀ (f₁ f₂ : Nat), n < f₁ → n < f₂ →
    natDigitsGo f₁ n = natDigitsGo f₂ n := by
  induction n using Nat.strongRecOn with
  | _ n ih =>
    intro f₁ f₂ h₁ h₂
    cases f₁ with
    | zero => omega
    | succ g₁ =>
      cases f₂ with
      | zero => omega
      | succ g₂ =>
        simp only [natDigitsGo]
        by_cases hn : n < 10
        · rw [if_pos hn, if_pos hn]
        · rw [if_neg hn, if_neg hn, ih (n / 10) (by omega) g₁ g₂ (by omega) (by omega)]

theorem natDigitsGo_lt10 : ∀ (fuel n : Nat), ∀ d ∈ natDigitsGo fuel n, d < 10
  | 0, n => by simp [natDigitsGo]
  | fuel + 1, n => by
    intro d hd
    simp only [natDigitsGo] at hd
    by_cases hn : n < 10
    · rw [if_pos hn] at hd
      simp at hd
      omega
    · rw [if_neg hn] at hd
      rcases List.mem_append.mp hd with h | h
      · exact natDigitsGo_lt10 fuel (n / 10) d h
      · simp at h
        omega

theorem natDigits_lt10 (n : Nat) : ∀ d ∈ natDigits n, d < 10 :=
  natDigitsGo_lt10 (n + 1) n

theorem foldl_val_from (ds : List Nat) : ∀ (a : Nat),
    ds.foldl (fun x d => x * 10 + d) a = a * 10 ^ ds.length + valN ds := by
  induction ds with
  | nil => intro a; simp [valN]
  | cons d t ih =>
    intro a
    have hv : valN (d :: t) = d * 10 ^ t.length + valN t := by
      show t.foldl _ (0 * 10 + d) = _
      rw [ih (0 * 10 + d)]
      ring_nf
    show t.foldl _ (a * 10 + d) = a * 10 ^ (d :: t).length + valN (d :: t)
    rw [ih (a * 10 + d), hv]
    simp [List.length_cons]
    ring

theorem valN_cons (d : Nat) (t : List Nat) :
    valN (d :: t) = d * 10 ^ t.length + valN t := by
  show t.foldl _ (0 * 10 + d) = _
  rw [foldl_val_from t (0 * 10 + d)]
  ring_nf

theorem valN_lt (ds : List Nat) (h : ∀ d ∈ ds, d < 10) :
    valN ds < 10 ^ ds.length := by
  induction ds with
  | nil => simp [valN]
  | cons d t ih =>
    rw [valN_cons]
    have hd : d < 10 := h d (by simp)
    have ht := ih fun x hx => h x (by simp [hx])
    calc d * 10 ^ t.length + valN t < d * 10 ^ t.length + 10 ^ t.length :=
          Nat.add_lt_add_left ht _
      _ = (d + 1) * 10 ^ t.length := by ring
      _ ≤ 10 * 10 ^ t.length := Nat.mul_le_mul_right _ (by omega)
      _ = 10 ^ (d :: t).length := by rw [List.length_cons]; ring

theorem valN_natDigits (n : Nat) : valN (natDigits n) = n := by
  induction n using Nat.strongRecOn with
  | _ n ih =>
    unfold natDigits
    by_cases hn : n < 10
    · simp only [natDigitsGo, if_pos hn]
      simp [valN]
    · have step : natDigitsGo (n + 1) n = natDigitsGo (n / 10 + 1) (n / 10) ++ [n % 10] := by
        conv_lhs =>
          rw [show natDigitsGo (n + 1) n =
            if n < 10 then [n] else natDigitsGo n (n / 10) ++ [n % 10] from rfl]
        rw [if_neg hn, natDigitsGo_extra (n / 10) n (n / 10 + 1) (by omega) (by omega)]
      rw [step, valN, List.foldl_append]
      have hv := ih (n / 10) (by omega)
      unfold natDigits valN at hv
      rw [hv]
      simp only [List.foldl_cons, List.foldl_nil]
      omega

theorem natDigits_ne_nil (n : Nat) : natDigits n ≠ [] := by
  unfold natDigits
  simp only [natDigitsGo]
  by_cases hn : n < 10
  · simp [if_pos hn]
  · simp [if_neg hn]

theorem digitC_toNat {d : Nat} (h : d < 10) : (digitC d).toNat = 48 + d := by
  interval_cases d <;> decide

theorem digitVal_digitC {d : Nat} (h : d < 10) : digitVal (digitC d) = some d := by
  interval_cases d <;> decide

theorem parse_fold_digits (ds : List Nat) : ∀ (a : Nat), (∀ d ∈ ds, d < 10) →
    (ds.map digitC).foldl
        (fun acc c => acc.bind fun x => (digitVal c).map fun dd => x * 10 + dd)
        (some a) =
      some (ds.foldl (fun x d => x * 10 + d) a) := by
  induction ds with
  | nil => intro a _; rfl
  | cons d t ih =>
    intro a h
    rw [List.map_cons, List.foldl_cons, List.foldl_cons]
    have hd : d < 10 := h d (by simp)
    rw [show (some a).bind (fun x => (digitVal (digitC d)).map fun dd => x * 10 + dd) =
        some (a * 10 + d) from by rw [digitVal_digitC hd]; rfl]
    exact ih (a * 10 + d) fun x hx => h x (by simp [hx])

theorem zfill5_eq_map (n : Nat) :
    zfill5 n = (List.replicate (5 - (natDigits n).length) 0 ++ natDigits n).map digitC := by
  unfold zfill5 natStr
  rw [List.map_append, List.map_replicate, List.length_map]
  rw [show digitC 0 = '0' from by decide]

theorem valN_replicate_zero (k : Nat) (ds : List Nat) :
    valN (List.replicate k 0 ++ ds) = valN ds := by
  induction k with
  | zero => rfl
  | succ m ih =>
    rw [List.replicate_succ]
    show valN (0 :: (List.replicate m 0 ++ ds)) = valN ds
    rw [valN]
    simp only [List.foldl_cons]
    rw [show (0 * 10 + 0) = 0 from rfl]
    exact ih

theorem parseNat_map_digits (ds : List Nat) (h10 : ∀ d ∈ ds, d < 10)
    (hne : ds ≠ []) : parseNat (ds.map digitC) = some (valN ds) := by
  rw [parseNat]
  cases ds with
  | nil => exact absurd rfl hne
  | cons d t =>
    rw [if_neg (by simp)]
    exact parse_fold_digits (d :: t) 0 h10

theorem parseNat_zfill5 (n : Nat) : parseNat (zfill5 n) = some n := by
  rw [zfill5_eq_map, parseNat_map_digits _ ?h10 ?hne, valN_replicate_zero, valN_natDigits]
  case h10 =>
    intro d hd
    rcases List.mem_append.mp hd with h | h
    · simp at h
      omega
    · exact natDigits_lt10 n d h
  case hne =>
    intro hc
    exact natDigits_ne_nil n (List.append_eq_nil.mp hc).2

/-! ### Lexicographic comparison facts -/

theorem charsLt_irrefl : ∀ (a : List Char), charsLt a a = false
  | [] => rfl
  | c :: t => by
    rw [charsLt, if_neg (by omega), if_neg (by omega)]
    exact charsLt_irrefl t

theorem charsLt_asymm : ∀ (a b : List Char), charsLt a b = true → charsLt b a = false
  | [], [], h => by simp [charsLt] at h
  | [], _ :: _, _ => rfl
  | _ :: _, [], h => by simp [charsLt] at h
  | a :: as, b :: bs, h => by
    rw [charsLt] at h
    rw [charsLt]
    split at h
    · next hab => rw [if_neg (by omega), if_pos hab]
    · split at h
      · cases h
      · next h1 h2 =>
        rw [if_neg (by omega), if_neg (by omega)]
        exact charsLt_asymm as bs h

theorem charsLt_false_trans : ∀ (a b c : List Char), charsLt b a = false →
    charsLt c b = false → charsLt c a = false
  | [], b, c, h₁, h₂ => by cases c <;> rfl
  | _ :: _, [], _, h₁, _ => by simp [charsLt] at h₁
  | _ :: _, _ :: _, [], _, h₂ => by simp [charsLt] at h₂
  | ah :: at', bh :: bt, ch :: ct, h₁, h₂ => by
    rw [charsLt] at h₁ h₂
    rw [charsLt]
    split at h₁
    · cases h₁
    · split at h₂
      · cases h₂
      · split at h₁ <;> split at h₂
        · rw [if_neg (by omega), if_pos (by omega)]
        · rw [if_neg (by omega), if_pos (by omega)]
        · rw [if_neg (by omega), if_pos (by omega)]
        · rw [if_neg (by omega), if_neg (by omega)]
          exact charsLt_false_trans at' bt ct h₁ h₂

theorem charsLt_append_left : ∀ (p x y : List Char),
    charsLt (p ++ x) (p ++ y) = charsLt x y
  | [], _, _ => rfl
  | c :: t, x, y => by
    rw [List.cons_append, List.cons_append, charsLt, if_neg (by omega), if_neg (by omega)]
    exact charsLt_append_left t x y

theorem char_toNat_inj {a b : Char} (h : a.toNat = b.toNat) : a = b :=
  Char.ext (UInt32.ext h)

theorem charsLt_append_eqlen : ∀ (x y s t : List Char), x.length = y.length →
    (charsLt (x ++ s) (y ++ t) = true ↔
      (charsLt x y = true ∨ (x = y ∧ charsLt s t = true)))
  | [], [], s, t, _ => by simp [charsLt]
  | [], _ :: _, _, _, h => by simp at h
  | _ :: _, [], _, _, h => by simp at h
  | a :: as, b :: bs, s, t, h => by
    rw [List.cons_append, List.cons_append, charsLt]
    by_cases hab : a.toNat < b.toNat
    · rw [if_pos hab]
      constructor
      · intro _
        left
        rw [charsLt, if_pos hab]
      · intro _
        rfl
    · rw [if_neg hab]
      by_cases hba : b.toNat < a.toNat
      · rw [if_pos hba]
        constructor
        · intro hc
          cases hc
        · rintro (hc | ⟨hc, _⟩)
          · rw [charsLt, if_neg hab, if_pos hba] at hc
            cases hc
          · cases hc
            omega
      · rw [if_neg hba]
        have hab2 : a = b := char_toNat_inj (by omega)
        subst hab2
        rw [charsLt_append_eqlen as bs s t (by simpa using h)]
        constructor
        · rintro (hc | ⟨rfl, hc⟩)
          · left
            rw [charsLt, if_neg hab, if_neg hba]
            exact hc
          · right
            exact ⟨rfl, hc⟩
        · rintro (hc | ⟨hc, hc2⟩)
          · rw [charsLt, if_neg hab, if_neg hba] at hc
            left
            exact hc
          · right
            refine ⟨?_, hc2⟩
            cases hc
            rfl

theorem charsLt_map_digitC : ∀ (xs ys : List Nat), xs.length = ys.length →
    (∀ d ∈ xs, d < 10) → (∀ d ∈ ys, d < 10) →
    (charsLt (xs.map digitC) (ys.map digitC) = true ↔ valN xs < valN ys)
  | [], [], _, _, _ => by simp [charsLt, valN]
  | [], _ :: _, h, _, _ => by simp at h
  | _ :: _, [], h, _, _ => by simp at h
  | x :: xs, y :: ys, h, hx, hy => by
    have hx0 : x < 10 := hx x (by simp)
    have hy0 : y < 10 := hy y (by simp)
    have hlen : xs.length = ys.length := by simpa using h
    rw [List.map_cons, List.map_cons, charsLt, digitC_toNat hx0, digitC_toNat hy0]
    rw [valN_cons, valN_cons, hlen]
    have hvx := valN_lt xs fun d hd => hx d (by simp [hd])
    have hvy := valN_lt ys fun d hd => hy d (by simp [hd])
    rw [hlen] at hvx
    by_cases hxy : x < y
    · rw [if_pos (by omega)]
      constructor
      · intro _
        calc x * 10 ^ ys.length + valN xs < x * 10 ^ ys.length + 10 ^ ys.length :=
              Nat.add_lt_add_left hvx _
          _ = (x + 1) * 10 ^ ys.length := by ring
          _ ≤ y * 10 ^ ys.length := Nat.mul_le_mul_right _ (by omega)
          _ ≤ y * 10 ^ ys.length + valN ys := Nat.le_add_right _ _
      · intro _
        rfl
    · by_cases hyx : y < x
      · rw [if_neg (by omega), if_pos (by omega)]
        constructor
        · intro hc
          cases hc
        · intro hc
          have hlt : y * 10 ^ ys.length + valN ys < x * 10 ^ ys.length + valN xs :=
            calc y * 10 ^ ys.length + valN ys < y * 10 ^ ys.length + 10 ^ ys.length :=
                  Nat.add_lt_add_left hvy _
              _ = (y + 1) * 10 ^ ys.length := by ring
              _ ≤ x * 10 ^ ys.length := Nat.mul_le_mul_right _ (by omega)
              _ ≤ x * 10 ^ ys.length + valN xs := Nat.le_add_right _ _
          exact absurd hc (by omega)
      · have hexy : x = y := by omega
        subst hexy
        rw [if_neg (by omega), if_neg (by omega)]
        rw [charsLt_map_digitC xs ys hlen (fun d hd => hx d (by simp [hd]))
          (fun d hd => hy d (by simp [hd]))]
        omega

/-! ### Filename structure facts -/

theorem natDigits_length_le : ∀ (k n : Nat), 0 < k → n < 10 ^ k →
    (natDigits n).length ≤ k := by
  intro k n
  induction n using Nat.strongRecOn generalizing k with
  | _ n ih =>
    intro hk hn
    by_cases h10 : n < 10
    · unfold natDigits
      rw [show natDigitsGo (n + 1) n =
        if n < 10 then [n] else natDigitsGo n (n / 10) ++ [n % 10] from rfl, if_pos h10]
      simpa using hk
    · have hstep : natDigits n = natDigits (n / 10) ++ [n % 10] := by
        unfold natDigits
        conv_lhs =>
          rw [show natDigitsGo (n + 1) n =
            if n < 10 then [n] else natDigitsGo n (n / 10) ++ [n % 10] from rfl]
        rw [if_neg h10, natDigitsGo_extra (n / 10) n (n / 10 + 1) (by omega) (by omega)]
      have hk2 : 2 ≤ k := by
        by_contra hcon
        have : k = 1 := by omega
        subst this
        simp at hn
        omega
      have hdiv : n / 10 < 10 ^ (k - 1) := by
        have hpow : 10 ^ k = 10 ^ (k - 1) * 10 := by
          rw [← pow_succ]
          congr 1
          omega
        rw [Nat.div_lt_iff_lt_mul (by omega)]
        omega
      have := ih (n / 10) (by omega) (k - 1) (by omega) hdiv
      rw [hstep, List.length_append]
      simp
      omega

theorem zfill5_length {n : Nat} (h : n < 100000) : (zfill5 n).length = 5 := by
  have hlen : (natDigits n).length ≤ 5 := natDigits_length_le 5 n (by omega) (by omega)
  unfold zfill5 natStr
  rw [List.length_append, List.length_replicate, List.length_map]
  omega

theorem charsLt_zfill5_iff {m n : Nat} (hm : m < 100000) (hn : n < 100000) :
    (charsLt (zfill5 m) (zfill5 n) = true ↔ m < n) := by
  rw [zfill5_eq_map, zfill5_eq_map]
  have hlm : (natDigits m).length ≤ 5 := natDigits_length_le 5 m (by omega) (by omega)
  have hln : (natDigits n).length ≤ 5 := natDigits_length_le 5 n (by omega) (by omega)
  rw [charsLt_map_digitC _ _ ?hlen ?hm10 ?hn10]
  · rw [valN_replicate_zero, valN_replicate_zero, valN_natDigits, valN_natDigits]
  case hlen =>
    rw [List.length_append, List.length_append, List.length_replicate,
      List.length_replicate]
    omega
  case hm10 =>
    intro d hd
    rcases List.mem_append.mp hd with h | h
    · simp at h
      omega
    · exact natDigits_lt10 m d h
  case hn10 =>
    intro d hd
    rcases List.mem_append.mp hd with h | h
    · simp at h
      omega
    · exact natDigits_lt10 n d h

theorem mem_zfill5_isDigit {n : Nat} {c : Char} (h : c ∈ zfill5 n) :
    48 ≤ c.toNat ∧ c.toNat ≤ 57 := by
  rw [zfill5_eq_map] at h
  obtain ⟨d, hd, rfl⟩ := List.mem_map.mp h
  have hd10 : d < 10 := by
    rcases List.mem_append.mp hd with h' | h'
    · simp at h'
      omega
    · exact natDigits_lt10 n d h'
  rw [digitC_toNat hd10]
  omega

theorem genFilename_data (s : String) (n : Nat) :
    (genFilename s n).data =
      s.data ++ '_' :: (('o' :: 'b' :: 'j' :: zfill5 n) ++ '_' :: "plane000.jpg".data) := by
  unfold genFilename
  rw [show (s ++ "_obj" ++ (⟨zfill5 n⟩ : String) ++ "_plane000.jpg").data =
    s.data ++ "_obj".data ++ zfill5 n ++ "_plane000.jpg".data from by
      simp [String.data_append]]
  simp

theorem splitU_ne_nil : ∀ (cs : List Char), splitU cs ≠ []
  | [] => by simp [splitU]
  | c :: cs => by
    rw [splitU]
    split
    · simp
    · split
      · simp
      · simp

theorem splitU_no_us : ∀ (cs : List Char), '_' ∉ cs → splitU cs = [cs]
  | [] => fun _ => rfl
  | c :: cs => by
    intro h
    simp only [List.mem_cons] at h
    push_neg at h
    rw [splitU, if_neg (fun hc => h.1 hc.symm), splitU_no_us cs h.2]

theorem splitU_append : ∀ (xs ys : List Char), '_' ∉ xs →
    splitU (xs ++ '_' :: ys) = xs :: splitU ys
  | [], ys, _ => by
    rw [List.nil_append, splitU, if_pos rfl]
  | x :: xs, ys, h => by
    simp only [List.mem_cons] at h
    push_neg at h
    rw [List.cons_append, splitU, if_neg (fun hc => h.1 hc.symm),
      splitU_append xs ys h.2]

theorem string_mk_data (s : String) : (⟨s.data⟩ : String) = s := rfl

theorem splitFilename_gen (s : String) (n : Nat) (hs : '_' ∉ s.data) :
    splitFilename (genFilename s n) = some (s, n) := by
  unfold splitFilename
  rw [genFilename_data]
  rw [splitU_append s.data _ hs]
  rw [splitU_append ('o' :: 'b' :: 'j' :: zfill5 n) _ ?hobj]
  case hobj =>
    intro hc
    simp only [List.mem_cons] at hc
    rcases hc with h | h | h | h
    · exact absurd h (by decide)
    · exact absurd h (by decide)
    · exact absurd h (by decide)
    · exact absurd (mem_zfill5_isDigit h) (by decide)
  rw [splitU_no_us _ (by decide)]
  dsimp only
  rw [show List.drop 3 ('o' :: 'b' :: 'j' :: zfill5 n) = zfill5 n from rfl, parseNat_zfill5]
  rfl

theorem strLe_gen_iff {s : String} {m n : Nat} (hm : m < 100000)
    (hn : n < 100000) :
    (strLe (genFilename s m) (genFilename s n) = true ↔ m ≤ n) := by
  unfold strLe
  rw [genFilename_data, genFilename_data]
  rw [show s.data ++ '_' :: (('o' :: 'b' :: 'j' :: zfill5 n) ++ '_' :: "plane000.jpg".data) =
    (s.data ++ ['_', 'o', 'b', 'j']) ++ (zfill5 n ++ '_' :: "plane000.jpg".data) from by simp]
  rw [show s.data ++ '_' :: (('o' :: 'b' :: 'j' :: zfill5 m) ++ '_' :: "plane000.jpg".data) =
    (s.data ++ ['_', 'o', 'b', 'j']) ++ (zfill5 m ++ '_' :: "plane000.jpg".data) from by simp]
  rw [charsLt_append_left]
  constructor
  · intro h
    by_contra hcon
    have hlt : charsLt (zfill5 n ++ '_' :: "plane000.jpg".data)
        (zfill5 m ++ '_' :: "plane000.jpg".data) = true := by
      rw [charsLt_append_eqlen _ _ _ _ (by simp [zfill5_length hn, zfill5_length hm])]
      left
      rw [charsLt_zfill5_iff hn hm]
      omega
    rw [hlt] at h
    exact absurd h (by decide)
  · intro hmn
    by_contra hcon
    simp at hcon
    rw [charsLt_append_eqlen _ _ _ _ (by simp [zfill5_length hn, zfill5_length hm])] at hcon
    rcases hcon with hlt | ⟨heq, hlt⟩
    · rw [charsLt_zfill5_iff hn hm] at hlt
      omega
    · rw [charsLt_irrefl] at hlt
      cases hlt

/-! ### Sorting facts -/

theorem strLe_total (a b : String) (h : strLe a b = false) : strLe b a = true := by
  unfold strLe at h ⊢
  have hlt : charsLt b.data a.data = true := by
    revert h
    cases charsLt b.data a.data <;> simp
  rw [charsLt_asymm _ _ hlt]
  rfl

theorem strLe_trans (a b c : String) (h₁ : strLe a b = true) (h₂ : strLe b c = true) :
    strLe a c = true := by
  unfold strLe at h₁ h₂ ⊢
  have hba : charsLt b.data a.data = false := by
    revert h₁
    cases charsLt b.data a.data <;> simp
  have hcb : charsLt c.data b.data = false := by
    revert h₂
    cases charsLt c.data b.data <;> simp
  rw [charsLt_false_trans a.data b.data c.data hba hcb]
  rfl

theorem mem_insBy {α : Type} {le : α → α → Bool} {x a : α} :
    ∀ {l : List α}, a ∈ insBy le x l → a = x ∨ a ∈ l
  | [], h => by
    simp [insBy] at h
    simp [h]
  | y :: ys, h => by
    rw [insBy] at h
    split at h
    · rcases List.mem_cons.mp h with h | h
      · left; exact h
      · right; exact h
    · rcases List.mem_cons.mp h with h | h
      · right; simp [h]
      · rcases mem_insBy h with h | h
        · left; exact h
        · right; simp [h]

theorem pairwise_insBy {α : Type} {le : α → α → Bool}
    (htot : ∀ a b, le a b = false → le b a = true)
    (htrans : ∀ a b c, le a b = true → le b c = true → le a c = true)
    (x : α) : ∀ (l : List α), l.Pairwise (fun a b => le a b = true) →
    (insBy le x l).Pairwise (fun a b => le a b = true)
  | [], _ => by simp [insBy]
  | y :: ys, hp => by
    rw [insBy]
    rcases List.pairwise_cons.mp hp with ⟨hy, hys⟩
    split
    · next hxy =>
      rw [List.pairwise_cons]
      refine ⟨?_, hp⟩
      intro b hb
      rcases List.mem_cons.mp hb with rfl | hb
      · exact hxy
      · exact htrans x y b hxy (hy b hb)
    · next hxy =>
      rw [List.pairwise_cons]
      refine ⟨?_, pairwise_insBy htot htrans x ys hys⟩
      intro b hb
      rcases mem_insBy hb with rfl | hb
      · exact htot b y (by revert hxy; cases le b y <;> simp)
      · exact hy b hb

theorem pairwise_sortBy {α : Type} {le : α → α → Bool}
    (htot : ∀ a b, le a b = false → le b a = true)
    (htrans : ∀ a b c, le a b = true → le b c = true → le a c = true)
    (l : List α) : (sortBy le l).Pairwise (fun a b => le a b = true) := by
  unfold sortBy
  induction l with
  | nil => simp
  | cons x t ih => exact pairwise_insBy htot htrans x _ ih

theorem insBy_perm {α : Type} {le : α → α → Bool} (x : α) :
    ∀ (l : List α), (insBy le x l).Perm (x :: l)
  | [] => List.Perm.refl _
  | y :: ys => by
    rw [insBy]
    split
    · exact List.Perm.refl _
    · exact ((insBy_perm x ys).cons y).trans (List.Perm.swap x y ys)

theorem sortBy_perm {α : Type} {le : α → α → Bool} (l : List α) :
    (sortBy le l).Perm l := by
  unfold sortBy
  induction l with
  | nil => exact List.Perm.refl _
  | cons x t ih => exact (insBy_perm x _).trans (ih.cons x)

theorem lookupD_eq_none_iff {d : Data} {k : String} :
    lookupD d k = none ↔ k ∉ d.map Prod.fst := by
  induction d with
  | nil => simp [lookupD]
  | cons e t ih =>
    rw [lookupD]
    by_cases he : e.1 = k
    · simp [he]
    · rw [if_neg he]
      simp only [List.map_cons, List.mem_cons]
      rw [ih]
      constructor
      · intro h hc
        rcases hc with hc | hc
        · exact he hc.symm
        · exact h hc
      · intro h
        exact fun hc => h (Or.inr hc)

theorem lookupD_of_mem_nodup {d : Data} (hnd : (d.map Prod.fst).Nodup)
    {k : String} {r : Rcd} (hmem : (k, r) ∈ d) : lookupD d k = some r := by
  induction d with
  | nil => cases hmem
  | cons e t ih =>
    simp only [List.map_cons, List.nodup_cons] at hnd
    rcases List.mem_cons.mp hmem with rfl | hmem
    · rw [lookupD, if_pos rfl]
    · rw [lookupD]
      by_cases he : e.1 = k
      · exfalso
        apply hnd.1
        rw [he]
        exact List.mem_map.mpr ⟨(k, r), hmem, rfl⟩
      · rw [if_neg he]
        exact ih hnd.2 hmem

theorem lookupD_perm {d d' : Data} (hp : d.Perm d')
    (hnd : (d.map Prod.fst).Nodup) (k : String) :
    lookupD d k = lookupD d' k := by
  have hnd' : (d'.map Prod.fst).Nodup := ((hp.map Prod.fst).nodup_iff).mp hnd
  cases hl : lookupD d k with
  | some r => exact (lookupD_of_mem_nodup hnd' (hp.subset (lookupD_mem hl))).symm
  | none =>
    symm
    rw [lookupD_eq_none_iff]
    rw [lookupD_eq_none_iff] at hl
    intro hc
    exact hl ((hp.map Prod.fst).mem_iff.mpr hc)

theorem mapM_option_eq_some {α β : Type} {f : α → Option β} {g : α → β} :
    ∀ {l : List α}, (∀ a ∈ l, f a = some (g a)) → l.mapM f = some (l.map g)
  | [], _ => rfl
  | a :: t, h => by
    rw [List.mapM_cons, h a (by simp), mapM_option_eq_some fun x hx => h x (by simp [hx])]
    rfl

theorem map_eq_self_of_mem {α : Type} {f : α → α} :
    ∀ {l : List α}, (∀ a ∈ l, f a = a) → l.map f = l
  | [], _ => rfl
  | a :: t, h => by
    rw [List.map_cons, h a (by simp), map_eq_self_of_mem fun x hx => h x (by simp [hx])]

/-! ### C5 — sorted persistence -/

/-- C5: for a record mapping whose keys follow the canonical filename
convention (one sample without underscores, object numbers below 100000),
`_write_file` produces the header row followed by one row per record; the
records appear sorted by filename ascending, the written object numbers are
non-decreasing, and each object-number field is the 5-wide zero-padded
decimal. The result depends only on the sorted order, not on insertion
order. -/
theorem persist_sorted (repro : Bool) (sample : String) (d : Data)
    (hs : '_' ∉ sample.data)
    (hkeys : ∀ e ∈ d, ∃ n, n < 100000 ∧ e.1 = genFilename sample n) :
    ∃ body : List (Nat × Rcd),
      writeFile repro d =
        some (csvHeaders repro :: body.map (fun e =>
          [sample, (⟨zfill5 e.1⟩ : String), e.2.spec, pyStr e.2.conf] ++
            (match e.2.prolo with
             | some p => [p]
             | none => []))) ∧
      body.map (fun e => (genFilename sample e.1, e.2)) = sortByKey d ∧
      (sortByKey d).Pairwise (fun e₁ e₂ => strLe e₁.1 e₂.1 = true) ∧
      (body.map Prod.fst).Pairwise (· ≤ ·) := by
  have hkeys' : ∀ e ∈ sortByKey d, ∃ n, n < 100000 ∧ e.1 = genFilename sample n :=
    fun e he => hkeys e ((sortBy_perm d).subset he)
  have hsorted : (sortByKey d).Pairwise (fun e₁ e₂ => strLe e₁.1 e₂.1 = true) :=
    pairwise_sortBy (fun a b h => strLe_total a.1 b.1 h)
      (fun a b c h₁ h₂ => strLe_trans a.1 b.1 c.1 h₁ h₂) d
  refine ⟨(sortByKey d).map (fun e => (((splitFilename e.1).getD ("", 0)).2, e.2)),
    ?_, ?_, hsorted, ?_⟩
  · unfold writeFile
    rw [mapM_option_eq_some (g := fun e =>
      [sample, (⟨zfill5 (((splitFilename e.1).getD ("", 0)).2)⟩ : String),
        e.2.spec, pyStr e.2.conf] ++
        (match e.2.prolo with
         | some p => [p]
         | none => []))]
    · rw [List.map_map]
      rfl
    · intro e he
      obtain ⟨n, hn, hgen⟩ := hkeys' e he
      rw [rowOf, hgen, splitFilename_gen sample n hs]
      rfl
  · rw [List.map_map]
    apply map_eq_self_of_mem
    intro e he
    obtain ⟨n, hn, hgen⟩ := hkeys' e he
    show (genFilename sample ((splitFilename e.1).getD ("", 0)).2, e.2) = e
    rw [hgen, splitFilename_gen sample n hs]
    show (genFilename sample n, e.2) = e
    rw [← hgen]
  · rw [List.map_map]
    rw [List.pairwise_map]
    refine List.Pairwise.imp_of_mem ?_ hsorted
    intro e₁ e₂ h₁ h₂ hle
    obtain ⟨n₁, hn₁, hg₁⟩ := hkeys' e₁ h₁
    obtain ⟨n₂, hn₂, hg₂⟩ := hkeys' e₂ h₂
    show ((splitFilename e₁.1).getD ("", 0)).2 ≤ ((splitFilename e₂.1).getD ("", 0)).2
    rw [hg₁, hg₂, splitFilename_gen sample n₁ hs, splitFilename_gen sample n₂ hs]
    show n₁ ≤ n₂
    rw [hg₁, hg₂] at hle
    exact (strLe_gen_iff hn₁ hn₂).mp hle

/-- C5 witness: two records inserted in descending object order come out
ascending, with 5-wide zero-padded object numbers. -/
theorem persist_sorted_witness :
    ∃ body : List (Nat × Rcd),
      writeFile false [(genFilename "S1" 2, ⟨"Foo", .int 2, none⟩),
          (genFilename "S1" 1, ⟨"Bar", .str "3", none⟩)] =
        some (csvHeaders false :: body.map (fun e =>
          ["S1", (⟨zfill5 e.1⟩ : String), e.2.spec, pyStr e.2.conf] ++
            (match e.2.prolo with
             | some p => [p]
             | none => []))) ∧
      body.map (fun e => (genFilename "S1" e.1, e.2)) =
        sortByKey [(genFilename "S1" 2, ⟨"Foo", .int 2, none⟩),
          (genFilename "S1" 1, ⟨"Bar", .str "3", none⟩)] ∧
      (sortByKey [(genFilename "S1" 2, ⟨"Foo", .int 2, none⟩),
          (genFilename "S1" 1, ⟨"Bar", .str "3", none⟩)]).Pairwise
        (fun e₁ e₂ => strLe e₁.1 e₂.1 = true) ∧
      (body.map Prod.fst).Pairwise (· ≤ ·) :=
  persist_sorted false "S1"
    [(genFilename "S1" 2, ⟨"Foo", .int 2, none⟩),
     (genFilename "S1" 1, ⟨"Bar", .str "3", none⟩)]
    (by decide)
    (by
      intro e he
      simp only [List.mem_cons] at he
      rcases he with rfl | rfl | hc
      · exact ⟨2, by omega, rfl⟩
      · exact ⟨1, by omega, rfl⟩
      · cases hc)

/-! ### C2 — write/load round trip -/

theorem setD_append_of_none {d : Data} {k : String} (v : Rcd)
    (h : lookupD d k = none) : setD d k v = d ++ [(k, v)] := by
  induction d with
  | nil => rfl
  | cons e t ih =>
    rw [lookupD] at h
    split at h
    · cases h
    · next he =>
      rw [setD, if_neg he, List.cons_append, ih h]

theorem lookupD_append_single_none {d : Data} {k k₁ : String} {v : Rcd}
    (h : lookupD d k = none) (hne : k ≠ k₁) :
    lookupD (d ++ [(k₁, v)]) k = none := by
  rw [lookupD_eq_none_iff] at h ⊢
  rw [List.map_append, List.mem_append]
  rintro (hc | hc)
  · exact h hc
  · simp at hc
    exact hne hc

theorem lookupD_map_val (f : Rcd → Rcd) : ∀ (d : Data) (k : String),
    lookupD (d.map (fun e => (e.1, f e.2))) k = (lookupD d k).map f
  | [], _ => rfl
  | e :: t, k => by
    rw [List.map_cons, lookupD, lookupD]
    by_cases he : e.1 = k
    · rw [if_pos he, if_pos he]
      rfl
    · rw [if_neg he, if_neg he]
      exact lookupD_map_val f t k

/-- The row `_write_file` emits for one canonical record entry. -/
def rowFor (sample : String) (e : String × Rcd) : List String :=
  [sample, (⟨zfill5 (((splitFilename e.1).getD ("", 0)).2)⟩ : String),
    e.2.spec, pyStr e.2.conf] ++
    (match e.2.prolo with
     | some p => [p]
     | none => [])

theorem loadRow_rowFor (repro : Bool) (sample : String) (imgs : List String)
    (acc : Data) (e : String × Rcd) (n : Nat)
    (hs : '_' ∉ sample.data)
    (hgen : e.1 = genFilename sample n) (himg : genFilename sample n ∈ imgs)
    (hmode : (repro = true → e.2.prolo.isSome) ∧ (repro = false → e.2.prolo = none))
    (hacc : lookupD acc e.1 = none) :
    loadRow repro repro sample imgs acc (rowFor sample e) =
      .ok (acc ++ [(e.1, ⟨e.2.spec, .str (pyStr e.2.conf), e.2.prolo⟩)]) := by
  have hsplit : splitFilename e.1 = some (sample, n) := by
    rw [hgen]
    exact splitFilename_gen sample n hs
  cases hrep : repro with
  | true =>
    obtain ⟨p, hp⟩ := Option.isSome_iff_exists.mp (hmode.1 hrep)
    have hrow : rowFor sample e =
        [sample, (⟨zfill5 n⟩ : String), e.2.spec, pyStr e.2.conf, p] := by
      unfold rowFor
      rw [hsplit, hp]
      rfl
    rw [hrow]
    unfold loadRow
    rw [show unpackRow true [sample, (⟨zfill5 n⟩ : String), e.2.spec, pyStr e.2.conf, p] =
      .ok (sample, (⟨zfill5 n⟩ : String), e.2.spec, pyStr e.2.conf, p) from rfl]
    dsimp only
    rw [parseNat_zfill5]
    dsimp only
    rw [if_neg (show ¬ sample ≠ sample by simp)]
    rw [if_neg (show ¬ genFilename sample n ∉ imgs by simp [himg])]
    rw [show lookupD acc (genFilename sample n) = none from hgen ▸ hacc]
    rw [if_neg (show ¬ ((none : Option Rcd).isSome = true) by simp)]
    rw [if_pos rfl]
    rw [show setD acc (genFilename sample n)
        ⟨e.2.spec, .str (pyStr e.2.conf), some p⟩ =
      acc ++ [(genFilename sample n, ⟨e.2.spec, .str (pyStr e.2.conf), some p⟩)] from
      setD_append_of_none _ (hgen ▸ hacc)]
    rw [← hgen, ← hp]
  | false =>
    have hnone := hmode.2 hrep
    have hrow : rowFor sample e =
        [sample, (⟨zfill5 n⟩ : String), e.2.spec, pyStr e.2.conf] := by
      unfold rowFor
      rw [hsplit, hnone]
      rfl
    rw [hrow]
    unfold loadRow
    rw [show unpackRow false [sample, (⟨zfill5 n⟩ : String), e.2.spec, pyStr e.2.conf] =
      .ok (sample, (⟨zfill5 n⟩ : String), e.2.spec, pyStr e.2.conf, "") from rfl]
    dsimp only
    rw [parseNat_zfill5]
    dsimp only
    rw [if_neg (show ¬ sample ≠ sample by simp)]
    rw [if_neg (show ¬ genFilename sample n ∉ imgs by simp [himg])]
    rw [show lookupD acc (genFilename sample n) = none from hgen ▸ hacc]
    rw [if_neg (show ¬ ((none : Option Rcd).isSome = true) by simp)]
    rw [if_neg (show ¬ (false = true) by simp)]
    rw [show setD acc (genFilename sample n)
        ⟨e.2.spec, .str (pyStr e.2.conf), none⟩ =
      acc ++ [(genFilename sample n, ⟨e.2.spec, .str (pyStr e.2.conf), none⟩)] from
      setD_append_of_none _ (hgen ▸ hacc)]
    rw [← hgen, ← hnone]

theorem foldlM_loadRow_roundtrip (repro : Bool) (sample : String)
    (imgs : List String) (hs : '_' ∉ sample.data) :
    ∀ (entries : Data) (acc : Data),
    (entries.map Prod.fst).Nodup →
    (∀ e ∈ entries, ∃ n, e.1 = genFilename sample n ∧ genFilename sample n ∈ imgs) →
    (∀ e ∈ entries, (repro = true → e.2.prolo.isSome) ∧ (repro = false → e.2.prolo = none)) →
    (∀ e ∈ entries, lookupD acc e.1 = none) →
    List.foldlM (loadRow repro repro sample imgs) acc (entries.map (rowFor sample)) =
      .ok (acc ++ entries.map (fun e => (e.1, ⟨e.2.spec, .str (pyStr e.2.conf), e.2.prolo⟩)))
  | [], acc, _, _, _, _ => by simp [List.foldlM, pure, Except.pure]
  | e :: es, acc, hnd, hkeys, hmode, hacc => by
    simp only [List.map_cons, List.nodup_cons] at hnd ⊢
    obtain ⟨n, hgen, himg⟩ := hkeys e (by simp)
    rw [List.foldlM_cons,
      loadRow_rowFor repro sample imgs acc e n hs hgen himg (hmode e (by simp))
        (hacc e (by simp))]
    simp only [bind, Except.bind]
    rw [foldlM_loadRow_roundtrip repro sample imgs hs es _ hnd.2
      (fun x hx => hkeys x (by simp [hx]))
      (fun x hx => hmode x (by simp [hx]))
      (fun x hx => by
        obtain ⟨m, hgx, _⟩ := hkeys x (by simp [hx])
        refine lookupD_append_single_none (hacc x (by simp [hx])) ?_
        intro hc
        apply hnd.1
        rw [← hc]
        exact List.mem_map.mpr ⟨x, hx, rfl⟩)]
    rw [List.append_assoc]
    rfl

/-- C2 counterexample: an interactively-built store holds confidence as the
Python integer 2; writing and reloading yields the string `2`, so the
reloaded mapping is not identical to the original. -/
theorem roundtrip_cex :
    writeFile false [(genFilename "S1" 1, ⟨"Foo", .int 2, none⟩)] =
      some [plainHeaders, ["S1", "00001", "Foo", "2"]] ∧
    loadExisting false "S1" [genFilename "S1" 1] []
        [plainHeaders, ["S1", "00001", "Foo", "2"]] =
      .ok [(genFilename "S1" 1, ⟨"Foo", .str "2", none⟩)] ∧
    ((⟨"Foo", .str "2", none⟩ : Rcd) ≠ ⟨"Foo", .int 2, none⟩) := by
  refine ⟨by decide, rfl, by decide⟩

/-- C2 amended: writing a mode-consistent record mapping with canonical,
image-backed keys and reloading it preserves the key set, the species
string, and the secondary attribute, and maps each confidence to its decimal
string form (`str(conf)`); the mapping is identical to the original exactly
when every original confidence was already that string, as in a store that
was itself loaded from file. -/
theorem roundtrip_amended (repro : Bool) (sample : String) (imgs : List String)
    (d : Data) (hs : '_' ∉ sample.data) (hnd : (d.map Prod.fst).Nodup)
    (hkeys : ∀ e ∈ d, ∃ n, e.1 = genFilename sample n ∧ genFilename sample n ∈ imgs)
    (hmode : ∀ e ∈ d, (repro = true → e.2.prolo.isSome) ∧
      (repro = false → e.2.prolo = none)) :
    ∃ rows, writeFile repro d = some rows ∧
      ∃ d', loadExisting repro sample imgs [] rows = .ok d' ∧
        ∀ k, lookupD d' k =
          (lookupD d k).map fun r => ⟨r.spec, .str (pyStr r.conf), r.prolo⟩ := by
  have hperm : (sortByKey d).Perm d := sortBy_perm d
  have hkeys' : ∀ e ∈ sortByKey d, ∃ n, e.1 = genFilename sample n ∧
      genFilename sample n ∈ imgs := fun e he => hkeys e (hperm.subset he)
  have hmode' : ∀ e ∈ sortByKey d, (repro = true → e.2.prolo.isSome) ∧
      (repro = false → e.2.prolo = none) := fun e he => hmode e (hperm.subset he)
  have hnd' : ((sortByKey d).map Prod.fst).Nodup := ((hperm.map Prod.fst).nodup_iff).mpr hnd
  refine ⟨csvHeaders repro :: (sortByKey d).map (rowFor sample), ?_, ?_⟩
  · unfold writeFile
    rw [mapM_option_eq_some (g := rowFor sample)]
    · rfl
    · intro e he
      obtain ⟨n, hgen, _⟩ := hkeys' e he
      rw [rowOf, hgen, splitFilename_gen sample n hs]
      unfold rowFor
      rw [hgen, splitFilename_gen sample n hs]
      rfl
  · rw [loadExisting, if_pos rfl]
    rw [foldlM_loadRow_roundtrip repro sample imgs hs (sortByKey d) [] hnd' hkeys' hmode'
      (fun _ _ => rfl)]
    refine ⟨_, rfl, ?_⟩
    intro k
    rw [List.nil_append,
      lookupD_map_val (fun r => ⟨r.spec, .str (pyStr r.conf), r.prolo⟩) (sortByKey d) k,
      lookupD_perm hperm hnd' k]

/-- C2 witness: a one-record store loaded from file (string confidence)
round-trips to an identical mapping; the transform fixes it pointwise. -/
theorem roundtrip_amended_witness :
    ∃ rows, writeFile false [(genFilename "S1" 1, ⟨"Foo", .str "2", none⟩)] = some rows ∧
      ∃ d', loadExisting false "S1" [genFilename "S1" 1] [] rows = .ok d' ∧
        ∀ k, lookupD d' k =
          (lookupD [(genFilename "S1" 1, (⟨"Foo", .str "2", none⟩ : Rcd))] k).map
            fun r => ⟨r.spec, .str (pyStr r.conf), r.prolo⟩ :=
  roundtrip_amended false "S1" [genFilename "S1" 1]
    [(genFilename "S1" 1, ⟨"Foo", .str "2", none⟩)]
    (by decide) (by decide)
    (by
      intro e he
      simp only [List.mem_cons] at he
      rcases he with rfl | hc
      · exact ⟨1, rfl, by simp⟩
      · cases hc)
    (by
      intro e he
      simp only [List.mem_cons] at he
      rcases he with rfl | hc
      · exact ⟨fun h => Bool.noConfusion h, fun _ => rfl⟩
      · cases hc)

end Classifier
